import Mathlib

/-!
Verification of the zyncx shielded-pool program against its specification.

The development shallowly embeds the Solana/Anchor program
(`contracts/solana/zyncx/src`): 32-byte words (`[u8; 32]`) are modelled by
their big-endian `Nat` value (the all-zero array is `0`), unsigned machine
integers by `Nat` with explicit `% 2^64` where overflow matters, `i64`
timestamps by `Int`, fallible handlers by `Except`.  A handler failure on
Solana rolls the whole transaction back, so an `.error` result carries no
state: the pre-state is the post-state of a failed call.

External collaborators (the keccak hash used for tree folding, the commitment
hash, the ZK verifier, the Jupiter swap venue) are injected as function
parameters, mirroring the spec's instruction to model CPI targets as injected
interfaces.
-/

namespace Zyncx

/-- `state/merkle_tree.rs`: `MAX_DEPTH`. -/
def MAX_DEPTH : Nat := 20

/-- `state/merkle_tree.rs`: `ROOT_HISTORY_SIZE`. -/
def ROOT_HISTORY_SIZE : Nat := 30

/-- `state/merkle_tree.rs`: `MAX_LEAVES`. -/
def MAX_LEAVES : Nat := 100

/-- A 32-byte word (`[u8; 32]`), modelled by its big-endian `Nat` value.
The all-zero sentinel array is `0`. -/
abbrev Word := Nat

/-- `errors/mod.rs`: the error codes reachable in the modelled handlers, plus
the two Anchor/runtime account errors (`init` on an existing account, and a
bound account that does not exist), which surface as call failures exactly
like program errors. -/
inductive ZyncxError where
  | InvalidDepositAmount
  | InvalidWithdrawalAmount
  | InvalidSwapAmount
  | VaultNotFound
  | NullifierAlreadySpent
  | InvalidZKProof
  | MaxDepthReached
  | ArithmeticOverflow
  | Unauthorized
  | InsufficientFunds
  | ConfidentialSwapsDisabled
  | AmountTooSmall
  | AmountTooLarge
  | InvalidMint
  | InvalidComputationStatus
  | ComputationExpired
  | ComputationNotExpired
  | TokenMintMismatch
  | SameVaultSwap
  | AccountAlreadyInUse
  | AccountNotFound
deriving DecidableEq, Repr

/-- `state/merkle_tree.rs`: `MerkleTreeState`.  `roots` is the fixed
`[[u8; 32]; ROOT_HISTORY_SIZE]` ring buffer (a length-30 list here), `leaves`
the `Vec<[u8; 32]>` of inserted leaves. -/
structure MerkleTreeState where
  bump : Nat
  depth : Nat
  size : Nat
  current_root_index : Nat
  root : Word
  roots : List Word
  leaves : List Word
deriving DecidableEq, Repr

/-- One level of the bottom-up fold in `compute_root`'s inner `while`:
`simple_hash` adjacent pairs, hashing an unmatched final node with the
all-zero sentinel (`i += 2`, `right = current_level[i+1]` when present, else
`[0u8; 32]`).  The hash is the injected keccak `simple_hash`. -/
def pairUp (hsh : Word → Word → Word) : List Word → List Word
  | [] => []
  | [x] => [hsh x 0]
  | x :: y :: rest => hsh x y :: pairUp hsh rest

/-- Each fold level halves the node count, rounding up. -/
theorem pairUp_length (hsh : Word → Word → Word) :
    ∀ xs : List Word, (pairUp hsh xs).length = (xs.length + 1) / 2
  | [] => by simp [pairUp]
  | [_] => by simp [pairUp]
  | _ :: _ :: rest => by
      simp only [pairUp, List.length_cons, pairUp_length hsh rest]
      omega

/-- Fuel-indexed form of the outer `while current_level.len() > 1` loop of
`compute_root` (structural recursion, so the kernel can evaluate it); each
iteration shortens the level, so `xs.length` fuel always suffices. -/
def foldLevelsGo (hsh : Word → Word → Word) : Nat → List Word → Word
  | _, [] => 0
  | _, [x] => x
  | 0, _ :: _ :: _ => 0
  | fuel + 1, x :: y :: rest => foldLevelsGo hsh fuel (pairUp hsh (x :: y :: rest))

theorem foldLevelsGo_congr (hsh : Word → Word → Word) :
    ∀ f g : Nat, ∀ xs : List Word, xs.length ≤ f → xs.length ≤ g →
    foldLevelsGo hsh f xs = foldLevelsGo hsh g xs := by
  intro f
  induction f with
  | zero =>
    intro g xs hf _
    match xs with
    | [] => cases g <;> rfl
    | [x] => cases g <;> rfl
    | x :: y :: rest => simp at hf
  | succ f ih =>
    intro g xs hf hg
    match xs with
    | [] => cases g <;> rfl
    | [x] => cases g <;> rfl
    | x :: y :: rest =>
      match g with
      | 0 => simp at hg
      | g + 1 =>
        simp only [foldLevelsGo]
        have hlen : (pairUp hsh (x :: y :: rest)).length = (rest.length + 3) / 2 := by
          simp [pairUp_length]
        simp only [List.length_cons] at hf hg
        exact ih g (pairUp hsh (x :: y :: rest)) (by omega) (by omega)

/-- The outer `while current_level.len() > 1` loop of `compute_root`: fold
levels until a single node remains and return it (`current_level[0]`). -/
def foldLevels (hsh : Word → Word → Word) (xs : List Word) : Word :=
  foldLevelsGo hsh xs.length xs

/-- One loop iteration: pairing a level and continuing. -/
theorem foldLevels_cons (hsh : Word → Word → Word) (x y : Word)
    (rest : List Word) :
    foldLevels hsh (x :: y :: rest) = foldLevels hsh (pairUp hsh (x :: y :: rest)) := by
  show foldLevelsGo hsh (rest.length + 2) (x :: y :: rest) = _
  simp only [foldLevelsGo]
  exact foldLevelsGo_congr hsh (rest.length + 1) (pairUp hsh (x :: y :: rest)).length
    (pairUp hsh (x :: y :: rest)) (by simp [pairUp_length]; omega) le_rfl

/-- `MerkleTreeState::compute_root`: the all-zero root for an empty tree,
`simple_hash(leaf, 0)` for a single leaf, the bottom-up level fold
otherwise.  `simple_hash` never fails, so the `Result` is dropped. -/
def compute_root (hsh : Word → Word → Word) (leaves : List Word) : Word :=
  match leaves with
  | [] => 0
  | [x] => hsh x 0
  | x :: y :: rest => foldLevels hsh (x :: y :: rest)

/-- Modelled from the spec's words (for the refinement claim C2): "the root
at any time equals the deterministic pairwise hash-folding of the leaf
sequence padded with a zero sentinel at odd boundaries", with the empty tree
rooted at the zero sentinel.  A nonempty sequence is pair-folded at least
once, so a lone leaf is paired with the sentinel. -/
def specRoot (hsh : Word → Word → Word) (leaves : List Word) : Word :=
  match leaves with
  | [] => 0
  | x :: rest => foldLevels hsh (pairUp hsh (x :: rest))

/-- The source `compute_root` computes exactly the spec's pairwise fold. -/
theorem compute_root_eq_specRoot (hsh : Word → Word → Word)
    (leaves : List Word) : compute_root hsh leaves = specRoot hsh leaves := by
  match leaves with
  | [] => rfl
  | [x] => simp [compute_root, specRoot, pairUp, foldLevels, foldLevelsGo]
  | x :: y :: rest => simp [compute_root, specRoot, foldLevels_cons]

/-- `instructions/initialize.rs`, `handler`: the freshly initialized tree. -/
def initMerkleTree (bump : Nat) : MerkleTreeState :=
  { bump := bump
    depth := 0
    size := 0
    current_root_index := 0
    root := 0
    roots := List.replicate ROOT_HISTORY_SIZE 0
    leaves := [] }

/-- Fuel-indexed bit length (`n` fuel always suffices for `n`). -/
def bitLenGo : Nat → Nat → Nat
  | _, 0 => 0
  | 0, _ + 1 => 1
  | f + 1, n + 1 => bitLenGo f ((n + 1) / 2) + 1

/-- `MerkleTreeState::update_depth`: `0` when `size == 0`, otherwise
`64 - (size - 1).leading_zeros()`, i.e. the bit length of `size - 1`. -/
def update_depth (size : Nat) : Nat :=
  if size = 0 then 0 else bitLenGo (size - 1) (size - 1)

/-- `MerkleTreeState::insert`: guard depth and leaf caps, append the leaf,
recompute the root from scratch, write it into the ring buffer at
`(cursor + 1) % ROOT_HISTORY_SIZE`, advance the cursor, refresh the depth. -/
def MerkleTreeState.insert (hsh : Word → Word → Word) (t : MerkleTreeState)
    (leaf : Word) : Except ZyncxError (MerkleTreeState × Word) :=
  if ¬ t.depth < MAX_DEPTH then .error .MaxDepthReached
  else if ¬ t.leaves.length < MAX_LEAVES then .error .MaxDepthReached
  else
    let leaves := t.leaves ++ [leaf]
    let size := t.size + 1
    let new_root := compute_root hsh leaves
    let idx := (t.current_root_index + 1) % ROOT_HISTORY_SIZE
    .ok ({ t with
            leaves := leaves
            size := size
            root := new_root
            current_root_index := idx
            roots := t.roots.set idx new_root
            depth := update_depth size },
         new_root)

/-- The backward ring-buffer scan inside `root_exists`: up to `fuel` probes
starting at `idx`, stepping `idx - 1` with wraparound `0 ↦ 29`. -/
def scanRoots (roots : List Word) (c : Word) : Nat → Nat → Bool
  | _, 0 => false
  | idx, fuel + 1 =>
    if roots.getD idx 0 = c then true
    else scanRoots roots c (if idx = 0 then ROOT_HISTORY_SIZE - 1 else idx - 1) fuel

/-- `MerkleTreeState::root_exists`: the all-zero candidate is always absent;
otherwise scan the whole ring buffer backward from the cursor. -/
def MerkleTreeState.root_exists (t : MerkleTreeState) (c : Word) : Bool :=
  if c = 0 then false
  else scanRoots t.roots c t.current_root_index ROOT_HISTORY_SIZE

/-- A sequence of `insert` calls, stopping at the first failure. -/
def insertMany (hsh : Word → Word → Word) (t : MerkleTreeState) :
    List Word → Except ZyncxError MerkleTreeState
  | [] => .ok t
  | l :: ls =>
    match t.insert hsh l with
    | .error e => .error e
    | .ok (t2, _) => insertMany hsh t2 ls

/-- A concrete stand-in hash for witnesses: a (shifted) Cantor pairing, so it
is injective and never returns the zero sentinel. -/
def testHash (a b : Word) : Word := (a + b) * (a + b + 1) / 2 + b + 1

theorem insert_ok_fields (hsh : Word → Word → Word) (t t2 : MerkleTreeState)
    (leaf r : Word) (h : t.insert hsh leaf = .ok (t2, r)) :
    t2.leaves = t.leaves ++ [leaf] ∧
    t2.root = compute_root hsh (t.leaves ++ [leaf]) ∧
    t2.size = t.size + 1 ∧
    t2.current_root_index = (t.current_root_index + 1) % ROOT_HISTORY_SIZE ∧
    t2.roots = t.roots.set ((t.current_root_index + 1) % ROOT_HISTORY_SIZE)
      (compute_root hsh (t.leaves ++ [leaf])) := by
  unfold MerkleTreeState.insert at h
  split at h
  · exact absurd h (by simp)
  · split at h
    · exact absurd h (by simp)
    · simp only [Except.ok.injEq, Prod.mk.injEq] at h
      obtain ⟨h1, _⟩ := h
      subst h1
      simp

theorem insertMany_root_invariant (hsh : Word → Word → Word) (L : List Word) :
    ∀ t t2 : MerkleTreeState, t.root = compute_root hsh t.leaves →
    insertMany hsh t L = .ok t2 →
    t2.root = compute_root hsh t2.leaves ∧ t2.leaves = t.leaves ++ L := by
  induction L with
  | nil =>
    intro t t2 hroot h
    simp only [insertMany, Except.ok.injEq] at h
    subst h
    simp [hroot]
  | cons l ls ih =>
    intro t t2 hroot h
    simp only [insertMany] at h
    split at h
    · exact absurd h (by simp)
    · next tmid r heq =>
      obtain ⟨hleaves, hroot2, -⟩ := insert_ok_fields hsh t tmid l r heq
      have hmid := ih tmid t2 (by rw [hroot2, hleaves]) h
      exact ⟨hmid.1, by rw [hmid.2, hleaves]; simp⟩

/-- C2: for every sequence of successful inserts starting from the empty
tree, the stored current root equals the from-scratch pairwise hash-fold of
the current leaf sequence, pairing an unmatched final node with the all-zero
sentinel at every level, and the stored leaf sequence is exactly the inserted
sequence. -/
theorem stored_root_eq_spec_fold (hsh : Word → Word → Word) (b : Nat)
    (L : List Word) (t : MerkleTreeState)
    (h : insertMany hsh (initMerkleTree b) L = .ok t) :
    t.root = specRoot hsh t.leaves ∧ t.leaves = L := by
  have h0 : (initMerkleTree b).root = compute_root hsh (initMerkleTree b).leaves := by
    simp [initMerkleTree, compute_root]
  obtain ⟨h1, h2⟩ := insertMany_root_invariant hsh L (initMerkleTree b) t h0 h
  refine ⟨by rw [h1, compute_root_eq_specRoot], ?_⟩
  simpa [initMerkleTree] using h2

/-- The tree reached by inserting `[3, 5, 8]` with the witness hash. -/
def c2Tree : MerkleTreeState :=
  ((insertMany testHash (initMerkleTree 0) [3, 5, 8]).toOption).getD (initMerkleTree 0)

theorem stored_root_eq_spec_fold_witness :
    c2Tree.root = specRoot testHash c2Tree.leaves ∧ c2Tree.leaves = [3, 5, 8] :=
  stored_root_eq_spec_fold testHash 0 [3, 5, 8] c2Tree (by rfl)

/-! ## Root-history ring buffer (claim C3)

`insert` number `k` (1-based) writes the root of the first `k` leaves into
ring slot `k % ROOT_HISTORY_SIZE`.  The lemmas below characterize the ring's
contents after any successful insert sequence. -/

/-- The root produced by the `k`-th insert (0-based `k` here): the
from-scratch root of the first `k + 1` leaves. -/
def producedRoots (hsh : Word → Word → Word) (L : List Word) : List Word :=
  (List.range L.length).map fun k => compute_root hsh (L.take (k + 1))

/-- Round-robin writer: starting after `i` earlier writes, write each root
into slot `(writeIndex + 1) % ROOT_HISTORY_SIZE`, as `insert` does. -/
def ringAux (acc : List Word) (i : Nat) : List Word → List Word
  | [] => acc
  | r :: rest => ringAux (acc.set ((i + 1) % ROOT_HISTORY_SIZE) r) (i + 1) rest

/-- The ring buffer produced by writing `rs` round-robin into a fresh
all-zero ring. -/
def buildRing (rs : List Word) : List Word :=
  ringAux (List.replicate ROOT_HISTORY_SIZE 0) 0 rs

theorem ringAux_append_one (r : Word) :
    ∀ (rs : List Word) (acc : List Word) (i : Nat),
    ringAux acc i (rs ++ [r]) =
      (ringAux acc i rs).set ((i + rs.length + 1) % ROOT_HISTORY_SIZE) r
  | [], acc, i => by simp [ringAux]
  | x :: rest, acc, i => by
    show ringAux (acc.set ((i + 1) % ROOT_HISTORY_SIZE) x) (i + 1) (rest ++ [r]) = _
    rw [ringAux_append_one r rest]
    have harith : i + 1 + rest.length + 1 = i + (x :: rest).length + 1 := by
      simp only [List.length_cons]
      omega
    rw [harith]
    rfl

theorem ringAux_length : ∀ (rs : List Word) (acc : List Word) (i : Nat),
    (ringAux acc i rs).length = acc.length
  | [], _, _ => rfl
  | x :: rest, acc, i => by
    simp only [ringAux, ringAux_length rest]
    simp

theorem buildRing_length (rs : List Word) :
    (buildRing rs).length = ROOT_HISTORY_SIZE := by
  simp [buildRing, ringAux_length]

/-- The 1-based index of the latest insert that wrote slot `j`, as
`n - ((n + 30 - j) % 30)`; the slot is still all-zero when that value is `0`. -/
def lastSlotWriter (n j : Nat) : Nat :=
  n - (n + ROOT_HISTORY_SIZE - j) % ROOT_HISTORY_SIZE

/-- The value ring slot `j` holds after the roots `rs` have been written. -/
def slotVal (rs : List Word) (j : Nat) : Word :=
  if 1 ≤ lastSlotWriter rs.length j then rs.getD (lastSlotWriter rs.length j - 1) 0
  else 0

theorem getD_set_self (l : List Word) (i : Nat) (a : Word) (h : i < l.length) :
    (l.set i a).getD i 0 = a := by
  simp [List.getD, List.getElem?_set_eq_of_lt a h]

theorem getD_set_ne (l : List Word) (i j : Nat) (a : Word) (h : i ≠ j) :
    (l.set i a).getD j 0 = l.getD j 0 := by
  simp [List.getD, List.getElem?_set_ne h]

theorem getD_append_left (l l2 : List Word) (i : Nat) (h : i < l.length) :
    (l ++ l2).getD i 0 = l.getD i 0 := by
  simp [List.getD, List.getElem?_append_left h]

theorem buildRing_append_one (rs : List Word) (r : Word) :
    buildRing (rs ++ [r]) =
      (buildRing rs).set ((rs.length + 1) % ROOT_HISTORY_SIZE) r := by
  simp [buildRing, ringAux_append_one]

theorem buildRing_getD (rs : List Word) (j : Nat) (hj : j < ROOT_HISTORY_SIZE) :
    (buildRing rs).getD j 0 = slotVal rs j := by
  induction rs using List.reverseRecOn with
  | nil =>
    have h1 : (buildRing []).getD j 0 = 0 := by
      have hrepl : buildRing [] = List.replicate ROOT_HISTORY_SIZE 0 := rfl
      rw [hrepl]
      simp only [List.getD]
      cases hq : (List.replicate ROOT_HISTORY_SIZE (0 : Word)).get? j with
      | none => rfl
      | some v =>
        rw [List.eq_of_mem_replicate (List.get?_mem hq)]
        rfl
    rw [h1, slotVal]
    have : lastSlotWriter 0 j = 0 := by simp [lastSlotWriter]
    simp [this]
  | append_singleton rs r ih =>
    rw [buildRing_append_one]
    by_cases hcase : (rs.length + 1) % ROOT_HISTORY_SIZE = j
    · rw [hcase, getD_set_self _ _ _ (by rw [buildRing_length]; exact hj)]
      rw [slotVal]
      have hw : lastSlotWriter (rs ++ [r]).length j = rs.length + 1 := by
        simp only [lastSlotWriter, List.length_append, List.length_singleton,
          ROOT_HISTORY_SIZE] at *
        omega
      rw [hw]
      simp
    · rw [getD_set_ne _ _ _ _ hcase, ih]
      have hw : lastSlotWriter (rs ++ [r]).length j = lastSlotWriter rs.length j := by
        simp only [lastSlotWriter, List.length_append, List.length_singleton,
          ROOT_HISTORY_SIZE] at *
        omega
      rw [slotVal, slotVal, hw]
      by_cases hle : 1 ≤ lastSlotWriter rs.length j
      · have hlt : lastSlotWriter rs.length j - 1 < rs.length := by
          simp only [lastSlotWriter, ROOT_HISTORY_SIZE] at *
          omega
        simp only [hle, if_pos]
        rw [getD_append_left _ _ _ hlt]
      · simp [hle]

theorem scanRoots_eq_exists (roots : List Word) (c : Word) :
    ∀ (fuel idx : Nat), idx < ROOT_HISTORY_SIZE → fuel ≤ ROOT_HISTORY_SIZE →
    (scanRoots roots c idx fuel = true ↔
      ∃ j, j < fuel ∧
        roots.getD ((idx + ROOT_HISTORY_SIZE - j) % ROOT_HISTORY_SIZE) 0 = c)
  | 0, idx, _, _ => by simp [scanRoots]
  | fuel + 1, idx, hidx, hfuel => by
    have hid0 : (idx + ROOT_HISTORY_SIZE - 0) % ROOT_HISTORY_SIZE = idx := by
      simp only [ROOT_HISTORY_SIZE] at *; omega
    constructor
    · intro hscan
      rw [scanRoots] at hscan
      by_cases h0 : roots.getD idx 0 = c
      · exact ⟨0, Nat.succ_pos _, by rw [hid0]; exact h0⟩
      · rw [if_neg h0] at hscan
        have hwrap : (if idx = 0 then ROOT_HISTORY_SIZE - 1 else idx - 1) <
            ROOT_HISTORY_SIZE := by
          simp only [ROOT_HISTORY_SIZE] at *
          split <;> omega
        obtain ⟨j, hj, hval⟩ :=
          (scanRoots_eq_exists roots c fuel _ hwrap (by omega)).1 hscan
        refine ⟨j + 1, by omega, ?_⟩
        have harith :
            ((if idx = 0 then ROOT_HISTORY_SIZE - 1 else idx - 1) +
              ROOT_HISTORY_SIZE - j) % ROOT_HISTORY_SIZE =
            (idx + ROOT_HISTORY_SIZE - (j + 1)) % ROOT_HISTORY_SIZE := by
          simp only [ROOT_HISTORY_SIZE] at *
          split <;> omega
        rw [harith] at hval
        exact hval
    · rintro ⟨j, hj, hval⟩
      rw [scanRoots]
      by_cases h0 : roots.getD idx 0 = c
      · rw [if_pos h0]
      · rw [if_neg h0]
        have hwrap : (if idx = 0 then ROOT_HISTORY_SIZE - 1 else idx - 1) <
            ROOT_HISTORY_SIZE := by
          simp only [ROOT_HISTORY_SIZE] at *
          split <;> omega
        rw [scanRoots_eq_exists roots c fuel _ hwrap (by omega)]
        match j with
        | 0 =>
          exfalso
          rw [hid0] at hval
          exact h0 hval
        | j + 1 =>
          refine ⟨j, by omega, ?_⟩
          have harith :
              ((if idx = 0 then ROOT_HISTORY_SIZE - 1 else idx - 1) +
                ROOT_HISTORY_SIZE - j) % ROOT_HISTORY_SIZE =
              (idx + ROOT_HISTORY_SIZE - (j + 1)) % ROOT_HISTORY_SIZE := by
            simp only [ROOT_HISTORY_SIZE] at *
            split <;> omega
          rw [harith]
          exact hval

theorem scanRoots_full (roots : List Word) (c : Word) (idx : Nat)
    (hidx : idx < ROOT_HISTORY_SIZE) :
    (scanRoots roots c idx ROOT_HISTORY_SIZE = true ↔
      ∃ i, i < ROOT_HISTORY_SIZE ∧ roots.getD i 0 = c) := by
  rw [scanRoots_eq_exists roots c ROOT_HISTORY_SIZE idx hidx le_rfl]
  constructor
  · rintro ⟨j, hj, hval⟩
    exact ⟨(idx + ROOT_HISTORY_SIZE - j) % ROOT_HISTORY_SIZE,
      by simp only [ROOT_HISTORY_SIZE] at *; omega, hval⟩
  · rintro ⟨i, hi, hval⟩
    refine ⟨(idx + ROOT_HISTORY_SIZE - i) % ROOT_HISTORY_SIZE,
      by simp only [ROOT_HISTORY_SIZE] at *; omega, ?_⟩
    have harith :
        (idx + ROOT_HISTORY_SIZE -
          (idx + ROOT_HISTORY_SIZE - i) % ROOT_HISTORY_SIZE) %
          ROOT_HISTORY_SIZE = i := by
      simp only [ROOT_HISTORY_SIZE] at *
      omega
    rw [harith]
    exact hval

theorem slotVal_window (rs : List Word) (c : Word) (hc : c ≠ 0) :
    (∃ j, j < ROOT_HISTORY_SIZE ∧ slotVal rs j = c) ↔
    (∃ k, k < rs.length ∧ rs.length ≤ k + ROOT_HISTORY_SIZE ∧ rs.getD k 0 = c) := by
  constructor
  · rintro ⟨j, hj, hval⟩
    rw [slotVal] at hval
    by_cases hle : 1 ≤ lastSlotWriter rs.length j
    · simp only [hle, if_pos] at hval
      refine ⟨lastSlotWriter rs.length j - 1, ?_, ?_, hval⟩
      · simp only [lastSlotWriter, ROOT_HISTORY_SIZE] at *; omega
      · simp only [lastSlotWriter, ROOT_HISTORY_SIZE] at *; omega
    · simp only [hle, if_neg, if_false] at hval
      exact absurd hval.symm hc
  · rintro ⟨k, hk, hwin, hval⟩
    refine ⟨(k + 1) % ROOT_HISTORY_SIZE, by simp only [ROOT_HISTORY_SIZE]; omega, ?_⟩
    have hw : lastSlotWriter rs.length ((k + 1) % ROOT_HISTORY_SIZE) = k + 1 := by
      simp only [lastSlotWriter, ROOT_HISTORY_SIZE] at *
      omega
    rw [slotVal, hw]
    have h1 : (1 : Nat) ≤ k + 1 := by omega
    rw [if_pos h1]
    simpa using hval

theorem insertMany_append_one (hsh : Word → Word → Word) (x : Word) :
    ∀ (L : List Word) (t t2 : MerkleTreeState),
    (insertMany hsh t (L ++ [x]) = .ok t2 ↔
      ∃ t1 r, insertMany hsh t L = .ok t1 ∧ t1.insert hsh x = .ok (t2, r))
  | [], t, t2 => by
    simp only [List.nil_append, insertMany]
    cases hins : t.insert hsh x with
    | error e => simp [hins]
    | ok p =>
      simp only [insertMany]
      constructor
      · intro h
        simp only [Except.ok.injEq] at h
        exact ⟨t, p.2, rfl, by rw [hins, ← h]⟩
      · rintro ⟨t1, r, ht1, hr⟩
        simp only [Except.ok.injEq] at ht1
        subst ht1
        rw [hins] at hr
        simp only [Except.ok.injEq] at hr
        rw [hr]
  | l :: L, t, t2 => by
    simp only [List.cons_append, insertMany]
    cases hins : t.insert hsh l with
    | error e => simp
    | ok p => exact insertMany_append_one hsh x L p.1 t2

theorem producedRoots_append_one (hsh : Word → Word → Word) (L : List Word)
    (x : Word) :
    producedRoots hsh (L ++ [x]) =
      producedRoots hsh L ++ [compute_root hsh (L ++ [x])] := by
  simp only [producedRoots, List.length_append, List.length_singleton,
    List.range_succ, List.map_append, List.map_cons, List.map_nil]
  congr 1
  · apply List.map_congr_left
    intro k hk
    simp only [List.mem_range] at hk
    rw [List.take_append_of_le_length (by omega)]
  · rw [List.take_of_length_le (by simp)]

/-- After `insertMany`, the tree's ring buffer is the round-robin image of
the produced roots and the cursor sits at `n % ROOT_HISTORY_SIZE`. -/
theorem insertMany_ring_invariant (hsh : Word → Word → Word) (b : Nat)
    (L : List Word) :
    ∀ t : MerkleTreeState, insertMany hsh (initMerkleTree b) L = .ok t →
    t.roots = buildRing (producedRoots hsh L) ∧
    t.current_root_index = L.length % ROOT_HISTORY_SIZE ∧
    t.leaves = L := by
  induction L using List.reverseRecOn with
  | nil =>
    intro t h
    simp only [insertMany, Except.ok.injEq] at h
    subst h
    refine ⟨?_, rfl, rfl⟩
    simp [initMerkleTree, producedRoots, buildRing, ringAux]
  | append_singleton L x ih =>
    intro t h
    obtain ⟨t1, r, h1, hins⟩ := (insertMany_append_one hsh x L _ t).1 h
    obtain ⟨hroots1, hcri1, hleaves1⟩ := ih t1 h1
    obtain ⟨-, -, -, hcri, hroots⟩ := insert_ok_fields hsh t1 t x r hins
    refine ⟨?_, ?_, ?_⟩
    · rw [hroots, hroots1, hleaves1, hcri1,
        producedRoots_append_one, buildRing_append_one]
      congr 1
      have hlen : (producedRoots hsh L).length = L.length := by
        simp [producedRoots]
      rw [hlen]
      simp only [ROOT_HISTORY_SIZE]
      omega
    · rw [hcri, hcri1]
      simp only [List.length_append, List.length_singleton, ROOT_HISTORY_SIZE]
      omega
    · obtain ⟨hl, -⟩ := insert_ok_fields hsh t1 t x r hins
      rw [hl, hleaves1]

/-- C3 (amended): after any successful insert sequence from the empty tree,
`root_exists` accepts exactly the nonzero candidates whose value equals a
root produced within the last `ROOT_HISTORY_SIZE` inserts.  (A value is
judged per value, not per producing insert: a value also produced again
inside the window is still accepted after its first production left it.) -/
theorem root_exists_window (hsh : Word → Word → Word) (b : Nat)
    (L : List Word) (t : MerkleTreeState)
    (h : insertMany hsh (initMerkleTree b) L = .ok t) (c : Word) :
    t.root_exists c = true ↔
      (c ≠ 0 ∧ ∃ k, k < L.length ∧ L.length ≤ k + ROOT_HISTORY_SIZE ∧
        compute_root hsh (L.take (k + 1)) = c) := by
  obtain ⟨hroots, hcri, -⟩ := insertMany_ring_invariant hsh b L t h
  rw [MerkleTreeState.root_exists]
  by_cases hc : c = 0
  · simp [hc]
  · rw [if_neg hc, hcri, hroots]
    rw [scanRoots_full _ _ _ (by simp only [ROOT_HISTORY_SIZE]; omega)]
    have hchar : ∀ i, i < ROOT_HISTORY_SIZE →
        (buildRing (producedRoots hsh L)).getD i 0 = slotVal (producedRoots hsh L) i :=
      fun i hi => buildRing_getD _ i hi
    have hlen : (producedRoots hsh L).length = L.length := by simp [producedRoots]
    constructor
    · rintro ⟨i, hi, hval⟩
      rw [hchar i hi] at hval
      obtain ⟨k, hk, hwin, hv⟩ := (slotVal_window (producedRoots hsh L) c hc).1 ⟨i, hi, hval⟩
      rw [hlen] at hk hwin
      refine ⟨hc, k, hk, hwin, ?_⟩
      have : (producedRoots hsh L).getD k 0 = compute_root hsh (L.take (k + 1)) := by
        simp [producedRoots, List.getD, List.getElem?_map, List.getElem?_range hk]
      rw [this] at hv
      exact hv
    · rintro ⟨-, k, hk, hwin, hv⟩
      obtain ⟨j, hj, hval⟩ := (slotVal_window (producedRoots hsh L) c hc).2
        ⟨k, by rw [hlen]; exact hk, by rw [hlen]; exact hwin, by
          simp [producedRoots, List.getD, List.getElem?_map, List.getElem?_range hk, hv]⟩
      exact ⟨j, hj, by rw [hchar j hj]; exact hval⟩

/-- 31 leaves: a `1`, then a `0` (which reproduces the previous root, since
the lone leaf `1` was already paired with the zero sentinel), then 29 more
inserts to push the first root out of the 30-insert window. -/
def c3Leaves : List Word := 1 :: 0 :: List.replicate 29 2

/-- The tree reached by inserting `c3Leaves` with the witness hash. -/
def c3Tree : MerkleTreeState :=
  ((insertMany testHash (initMerkleTree 0) c3Leaves).toOption).getD (initMerkleTree 0)

/-- Counterexample to C3 as stated: the root produced by the very first
insert (`testHash 1 0`, the fold of the single leaf `1` with the zero
sentinel) is 31 inserts old, hence evicted from the
`ROOT_HISTORY_SIZE = 30` window, yet `root_exists` still reports it present —
its value was reproduced by the second insert. -/
theorem root_exists_window_cex :
    insertMany testHash (initMerkleTree 0) c3Leaves = .ok c3Tree ∧
    compute_root testHash (c3Leaves.take 1) = testHash 1 0 ∧
    c3Leaves.length = 31 ∧
    ¬ c3Leaves.length ≤ 0 + ROOT_HISTORY_SIZE ∧
    c3Tree.root_exists (testHash 1 0) = true :=
  ⟨by rfl, by rfl, by rfl, by decide, by rfl⟩

/-- The tree reached by inserting `[5, 7]` with the witness hash. -/
def c3WitTree : MerkleTreeState :=
  ((insertMany testHash (initMerkleTree 0) [5, 7]).toOption).getD (initMerkleTree 0)

theorem root_exists_window_witness :
    c3WitTree.root_exists (testHash 5 0) = true :=
  (root_exists_window testHash 0 [5, 7] c3WitTree (by rfl) (testHash 5 0)).mpr
    ⟨by decide, 0, by decide, by decide, by rfl⟩

/-! ## Accounts

Pubkeys are modelled as `Nat` (the default / all-zero pubkey is `0`).  Anchor
PDAs are deterministic functions of their seeds, so the vault PDA is
identified with its `asset_mint` seed and a nullifier record with its
`(vault, nullifier)` seed pair. -/

abbrev Pubkey := Nat

/-- `state/vault.rs` (declaration not in the provided tree): the vault kind,
used as `VaultType::Native` / `VaultType::Alternative` across the handlers. -/
inductive VaultType where
  | Native
  | Alternative
deriving DecidableEq, Repr

/-- `state/vault.rs` (declaration not in the provided tree): fields as
initialized by `instructions/initialize.rs` `handler` and used by the
deposit/withdraw/swap handlers. -/
structure VaultState where
  bump : Nat
  vault_type : VaultType
  asset_mint : Pubkey
  merkle_tree : Pubkey
  nonce : Nat
  authority : Pubkey
  total_deposited : Nat
deriving DecidableEq, Repr

/-- `state/nullifier.rs` (declaration not in the provided tree): fields as
written by every handler that creates or spends a nullifier record. -/
structure NullifierState where
  bump : Nat
  nullifier : Word
  spent : Bool
  spent_at : Int
  vault : Pubkey
deriving DecidableEq, Repr

/-- `state/arcium.rs`: `ComputationStatus`. -/
inductive ComputationStatus where
  | Pending
  | Processing
  | Completed
  | Failed
  | Expired
deriving DecidableEq, Repr

/-- `state/arcium.rs`: `ComputationType`. -/
inductive ComputationType where
  | ConfidentialSwap
  | ConfidentialLimitOrder
  | ConfidentialDCA
  | Custom
deriving DecidableEq, Repr

/-- `state/arcium.rs`: `ComputationRequest`. -/
structure ComputationRequest where
  bump : Nat
  request_id : Nat
  user : Pubkey
  vault : Pubkey
  computation_type : ComputationType
  status : ComputationStatus
  encrypted_strategy : List Nat
  callback_instruction : Nat
  amount : Nat
  src_token : Pubkey
  dst_token : Pubkey
  nullifier : Word
  new_commitment : Word
  queued_at : Int
  completed_at : Int
  result : List Nat
  expires_at : Int
deriving DecidableEq, Repr

/-- `state/arcium.rs`: `ArciumConfig`. -/
structure ArciumConfig where
  bump : Nat
  authority : Pubkey
  mxe_address : Pubkey
  computation_fee : Nat
  request_counter : Nat
  timeout_seconds : Int
  swaps_enabled : Bool
  limit_orders_enabled : Bool
  min_amount : Nat
  max_amount : Nat
deriving DecidableEq, Repr

/-- `state/arcium.rs`: `ConfidentialSwapParams`. -/
structure ConfidentialSwapParams where
  src_token : Pubkey
  dst_token : Pubkey
  amount : Nat
  encrypted_bounds : List Nat
  recipient : Pubkey
  nullifier : Word
  new_commitment : Word
deriving DecidableEq, Repr

/-- `state/vault.rs` (declaration not in the provided tree): swap parameters
with the fields the swap handlers use. -/
structure SwapParam where
  src_token : Pubkey
  dst_token : Pubkey
  amount_in : Nat
  min_amount_out : Nat
  recipient : Pubkey
deriving DecidableEq, Repr

/-- The fixed `b"confidential_swap_callback\0..."` tag written into
`callback_instruction`, as an opaque constant. -/
def confidential_swap_callback_tag : Nat := 1

/-- The external collaborators, injected as functions: the keccak
`simple_hash` used for tree folding, `poseidon_hash_commitment` for deposit
commitments, the ZK verifier program (judging the raw instruction data
assembled by the caller), and the Jupiter swap CPI acting on the
`(treasury, recipient)` balances. -/
structure Externals where
  hsh : Word → Word → Word
  commitHash : Nat → Word → Word
  verifier : List Nat → Bool
  jup : Nat → Nat → List Nat → Except ZyncxError (Nat × Nat)

/-- Big-endian byte decomposition of a 32-byte word, as the handlers build
their raw verifier payloads (`extend_from_slice`).  The `[0u8; 24]`-padded
big-endian `u64` amount encoding is `wordBytes (amount % 2^64)`. -/
def wordBytes (w : Word) : List Nat :=
  (List.range 32).map fun i => w / 256 ^ (31 - i) % 256

/-! ## Instruction handlers

Each handler is the pure function of its bound accounts, prefixed by the
`Accounts`-struct constraints that Anchor evaluates before the body (in
declaration order): an `init` account fails with an account-already-in-use
error when a record already occupies the PDA, and `constraint = ...` clauses
fail with their declared error codes. -/

/-- `instructions/confidential.rs`, `handler_create_nullifier`: a fresh
unspent record bound to the vault.  The `init` freshness check of the
`CreateNullifier` accounts happens at the system level. -/
def handler_create_nullifier (bump : Nat) (vaultKey : Pubkey)
    (nullifier : Word) : NullifierState :=
  { bump := bump, nullifier := nullifier, spent := false, spent_at := 0,
    vault := vaultKey }

/-- `instructions/confidential.rs`, `process_queue_confidential_swap` (the
body of `handler_queue_confidential_swap`), preceded by the
`QueueConfidentialSwap` constraint that the bound nullifier record is not
yet spent.  On success the handler marks the nullifier record spent at
`now`, creates the `Pending` request with
`expires_at = now + timeout_seconds`, bumps the request counter, and leaves
the Merkle tree untouched (only `get_root` is called on it). -/
def process_queue_confidential_swap (config : ArciumConfig)
    (vault : VaultState) (vaultKey : Pubkey) (merkle_tree : MerkleTreeState)
    (nullifier_account : NullifierState) (params : ConfidentialSwapParams)
    (proof : List Nat) (user : Pubkey) (reqBump : Nat) (now : Int) :
    Except ZyncxError
      (ArciumConfig × NullifierState × ComputationRequest × MerkleTreeState) :=
  if nullifier_account.spent then .error .NullifierAlreadySpent
  else if ¬ config.swaps_enabled then .error .ConfidentialSwapsDisabled
  else if ¬ config.min_amount ≤ params.amount then .error .AmountTooSmall
  else if ¬ params.amount ≤ config.max_amount then .error .AmountTooLarge
  else if params.src_token = 0 ∧ vault.vault_type ≠ VaultType.Native then
    .error .VaultNotFound
  else if params.src_token ≠ 0 ∧ vault.vault_type ≠ VaultType.Alternative then
    .error .VaultNotFound
  else if params.src_token ≠ 0 ∧ vault.asset_mint ≠ params.src_token then
    .error .InvalidMint
  else if proof = [] then .error .InvalidZKProof
  else
    .ok ({ config with request_counter := (config.request_counter + 1) % 2 ^ 64 },
         { nullifier_account with
             nullifier := params.nullifier
             spent := true
             spent_at := now
             vault := vaultKey },
         { bump := reqBump
           request_id := config.request_counter
           user := user
           vault := vaultKey
           computation_type := .ConfidentialSwap
           status := .Pending
           encrypted_strategy := params.encrypted_bounds
           callback_instruction := confidential_swap_callback_tag
           amount := params.amount
           src_token := params.src_token
           dst_token := params.dst_token
           nullifier := params.nullifier
           new_commitment := params.new_commitment
           queued_at := now
           completed_at := 0
           result := []
           expires_at := now + config.timeout_seconds },
         merkle_tree)

/-- `instructions/confidential.rs`, `handler_confidential_swap_callback`,
preceded by the `ConfidentialSwapCallback` constraint that the request is
still `Pending`.  The expiry check comes before any mutation; on
`success = false` only the request's status/result/timestamp are updated; on
`success = true` the new commitment is inserted, then the amount is either
transferred out of the treasury directly (same token) or handed to the
Jupiter CPI.  No nullifier account is bound by this instruction. -/
def handler_confidential_swap_callback (E : Externals)
    (computation_request : ComputationRequest) (merkle_tree : MerkleTreeState)
    (vault : VaultState) (vault_treasury recipient : Nat)
    (computation_success : Bool) (encrypted_result swap_data : List Nat)
    (now : Int) :
    Except ZyncxError
      (ComputationRequest × MerkleTreeState × VaultState × Nat × Nat) :=
  if computation_request.status ≠ ComputationStatus.Pending then
    .error .InvalidComputationStatus
  else if ¬ now ≤ computation_request.expires_at then .error .ComputationExpired
  else if ¬ computation_success then
    .ok ({ computation_request with
             status := if computation_success then ComputationStatus.Completed
                       else ComputationStatus.Failed
             completed_at := now
             result := encrypted_result },
         merkle_tree, vault, vault_treasury, recipient)
  else
    match merkle_tree.insert E.hsh computation_request.new_commitment with
    | .error e => .error e
    | .ok (tree2, _) =>
      if computation_request.src_token = computation_request.dst_token then
        if ¬ computation_request.amount ≤ vault_treasury then
          .error .InsufficientFunds
        else
          .ok ({ computation_request with
                   status := if computation_success then
                               ComputationStatus.Completed
                             else ComputationStatus.Failed
                   completed_at := now
                   result := encrypted_result },
               tree2, vault, vault_treasury - computation_request.amount,
               recipient + computation_request.amount)
      else
        match E.jup vault_treasury recipient swap_data with
        | .error e => .error e
        | .ok (tr2, rec2) =>
          .ok ({ computation_request with
                   status := if computation_success then
                               ComputationStatus.Completed
                             else ComputationStatus.Failed
                   completed_at := now
                   result := encrypted_result },
               tree2, vault, tr2, rec2)

/-- `instructions/confidential.rs`, `CancelComputation` constraints (caller
is the requester, status still `Pending`) followed by
`handler_cancel_computation` (only after expiry).  On success the request
account is closed. -/
def handler_cancel_computation (computation_request : ComputationRequest)
    (user : Pubkey) (now : Int) : Except ZyncxError Unit :=
  if computation_request.user ≠ user then .error .Unauthorized
  else if computation_request.status ≠ ComputationStatus.Pending then
    .error .InvalidComputationStatus
  else if ¬ computation_request.expires_at < now then
    .error .ComputationNotExpired
  else .ok ()

/-- `instructions/deposit.rs`, `handler_native` (`handler_token` is the same
with `VaultType::Alternative` and the vault token account as custody):
transfer the amount into custody, insert `H(amount, precommitment)`, bump
the nonce, add the amount to `total_deposited` with `checked_add`. -/
def deposit_handler_native (E : Externals) (vault : VaultState)
    (merkle_tree : MerkleTreeState) (vault_treasury : Nat) (amount : Nat)
    (precommitment : Word) :
    Except ZyncxError (VaultState × MerkleTreeState × Nat × Word) :=
  if ¬ 0 < amount then .error .InvalidDepositAmount
  else if vault.vault_type ≠ VaultType.Native then .error .VaultNotFound
  else
    match merkle_tree.insert E.hsh (E.commitHash amount precommitment) with
    | .error e => .error e
    | .ok (tree2, _) =>
      if 2 ^ 64 ≤ vault.total_deposited + amount then .error .ArithmeticOverflow
      else
        .ok ({ vault with
                nonce := (vault.nonce + 1) % 2 ^ 64
                total_deposited := vault.total_deposited + amount },
             tree2, vault_treasury + amount, E.commitHash amount precommitment)

/-- `instructions/deposit.rs`, `handler_token`: as `handler_native`, for an
`Alternative` vault, custody being the vault token account balance. -/
def deposit_handler_token (E : Externals) (vault : VaultState)
    (merkle_tree : MerkleTreeState) (vault_token_balance : Nat) (amount : Nat)
    (precommitment : Word) :
    Except ZyncxError (VaultState × MerkleTreeState × Nat × Word) :=
  if ¬ 0 < amount then .error .InvalidDepositAmount
  else if vault.vault_type ≠ VaultType.Alternative then .error .VaultNotFound
  else
    match merkle_tree.insert E.hsh (E.commitHash amount precommitment) with
    | .error e => .error e
    | .ok (tree2, _) =>
      if 2 ^ 64 ≤ vault.total_deposited + amount then .error .ArithmeticOverflow
      else
        .ok ({ vault with
                nonce := (vault.nonce + 1) % 2 ^ 64
                total_deposited := vault.total_deposited + amount },
             tree2, vault_token_balance + amount, E.commitHash amount precommitment)

/-- `instructions/withdraw.rs`, `handler_native`, preceded by the
`WithdrawNative` account resolution: `init` of the nullifier PDA for
`(vault, nullifier)` fails when a record already exists there.  On success
the returned components are the (untouched) vault, the tree, the treasury
and recipient lamports, the created (spent) nullifier record, and the raw
instruction data sent to the verifier program (proof bytes followed by the
root, nullifier, recipient, 32-byte big-endian amount, new commitment and
token mint words). -/
def withdraw_handler_native (E : Externals) (vault : VaultState)
    (vaultKey : Pubkey) (merkle_tree : MerkleTreeState) (vault_treasury : Nat)
    (nullifier_existing : Option NullifierState) (recipientKey : Pubkey)
    (recipient : Nat) (amount : Nat) (nullifier new_commitment : Word)
    (proof : List Nat) (bump : Nat) (now : Int) :
    Except ZyncxError
      (VaultState × MerkleTreeState × Nat × Nat × NullifierState × List Nat) :=
  if nullifier_existing.isSome then .error .AccountAlreadyInUse
  else if ¬ 0 < amount then .error .InvalidWithdrawalAmount
  else if vault.vault_type ≠ VaultType.Native then .error .VaultNotFound
  else if ¬ E.verifier (proof ++ wordBytes merkle_tree.root ++
      wordBytes nullifier ++ wordBytes recipientKey ++
      wordBytes (amount % 2 ^ 64) ++ wordBytes new_commitment ++
      wordBytes vault.asset_mint) then .error .InvalidZKProof
  else
    match (if new_commitment ≠ 0 then
            (merkle_tree.insert E.hsh new_commitment).map (·.1)
           else .ok merkle_tree : Except ZyncxError MerkleTreeState) with
    | .error e => .error e
    | .ok tree2 =>
      if ¬ amount ≤ vault_treasury then .error .InvalidWithdrawalAmount
      else
        .ok (vault, tree2, vault_treasury - amount, recipient + amount,
             ({ bump := bump, nullifier := nullifier, spent := true,
                spent_at := now, vault := vaultKey } : NullifierState),
             proof ++ wordBytes merkle_tree.root ++ wordBytes nullifier ++
               wordBytes recipientKey ++ wordBytes (amount % 2 ^ 64) ++
               wordBytes new_commitment ++ wordBytes vault.asset_mint)

/-- `instructions/withdraw.rs`, `handler_token`: as `handler_native` for an
`Alternative` vault; the outbound transfer is the SPL token CPI, whose
balance check is modelled by the `InsufficientFunds`-style guard. -/
def withdraw_handler_token (E : Externals) (vault : VaultState)
    (vaultKey : Pubkey) (merkle_tree : MerkleTreeState)
    (vault_token_balance : Nat) (nullifier_existing : Option NullifierState)
    (recipientKey : Pubkey) (recipient : Nat) (amount : Nat)
    (nullifier new_commitment : Word) (proof : List Nat) (bump : Nat)
    (now : Int) :
    Except ZyncxError
      (VaultState × MerkleTreeState × Nat × Nat × NullifierState × List Nat) :=
  if nullifier_existing.isSome then .error .AccountAlreadyInUse
  else if ¬ 0 < amount then .error .InvalidWithdrawalAmount
  else if vault.vault_type ≠ VaultType.Alternative then .error .VaultNotFound
  else if ¬ E.verifier (proof ++ wordBytes merkle_tree.root ++
      wordBytes nullifier ++ wordBytes recipientKey ++
      wordBytes (amount % 2 ^ 64) ++ wordBytes new_commitment ++
      wordBytes vault.asset_mint) then .error .InvalidZKProof
  else
    match (if new_commitment ≠ 0 then
            (merkle_tree.insert E.hsh new_commitment).map (·.1)
           else .ok merkle_tree : Except ZyncxError MerkleTreeState) with
    | .error e => .error e
    | .ok tree2 =>
      if ¬ amount ≤ vault_token_balance then .error .InsufficientFunds
      else
        .ok (vault, tree2, vault_token_balance - amount, recipient + amount,
             ({ bump := bump, nullifier := nullifier, spent := true,
                spent_at := now, vault := vaultKey } : NullifierState),
             proof ++ wordBytes merkle_tree.root ++ wordBytes nullifier ++
               wordBytes recipientKey ++ wordBytes (amount % 2 ^ 64) ++
               wordBytes new_commitment ++ wordBytes vault.asset_mint)

/-- `instructions/swap.rs`, `handler_native` (same-vault swap), preceded by
the `SwapNative` account resolution (`init` nullifier PDA).  Note the
unconditional `merkle_tree.insert(new_commitment)` — there is no
zero-sentinel check here, unlike Withdraw.  The groth16 placeholder only
rejects an empty proof.  Same-token swaps transfer directly from the
treasury (`transfer_sol_from_treasury`, with its `InsufficientFunds`
check); cross-token ones delegate to the Jupiter CPI. -/
def swap_handler_native (E : Externals) (vault : VaultState)
    (vaultKey : Pubkey) (merkle_tree : MerkleTreeState) (vault_treasury : Nat)
    (nullifier_existing : Option NullifierState) (recipient : Nat)
    (swap_param : SwapParam) (nullifier new_commitment : Word)
    (proof swap_data : List Nat) (bump : Nat) (now : Int) :
    Except ZyncxError
      (VaultState × MerkleTreeState × Nat × Nat × NullifierState × List (List Nat)) :=
  if nullifier_existing.isSome then .error .AccountAlreadyInUse
  else if ¬ 0 < swap_param.amount_in then .error .InvalidSwapAmount
  else if vault.vault_type ≠ VaultType.Native then .error .VaultNotFound
  else if proof = [] then .error .InvalidZKProof
  else
    match merkle_tree.insert E.hsh new_commitment with
    | .error e => .error e
    | .ok (tree2, _) =>
      if swap_param.src_token = swap_param.dst_token then
        if ¬ swap_param.amount_in ≤ vault_treasury then .error .InsufficientFunds
        else
          .ok (vault, tree2, vault_treasury - swap_param.amount_in,
               recipient + swap_param.amount_in,
               ({ bump := bump, nullifier := nullifier, spent := true,
                  spent_at := now, vault := vaultKey } : NullifierState),
               [wordBytes (swap_param.amount_in % 2 ^ 64),
                wordBytes merkle_tree.root, wordBytes new_commitment,
                wordBytes nullifier])
      else
        match E.jup vault_treasury recipient swap_data with
        | .error e => .error e
        | .ok (tr2, rec2) =>
          .ok (vault, tree2, tr2, rec2,
               ({ bump := bump, nullifier := nullifier, spent := true,
                  spent_at := now, vault := vaultKey } : NullifierState),
               [wordBytes (swap_param.amount_in % 2 ^ 64),
                wordBytes merkle_tree.root, wordBytes new_commitment,
                wordBytes nullifier])

/-- `instructions/swap.rs`, `handler_token`: as the native same-vault swap
for an `Alternative` vault (unconditional insert included), transfers going
through the SPL token CPI / Jupiter. -/
def swap_handler_token (E : Externals) (vault : VaultState)
    (vaultKey : Pubkey) (merkle_tree : MerkleTreeState)
    (vault_token_balance : Nat) (nullifier_existing : Option NullifierState)
    (recipient : Nat) (swap_param : SwapParam) (nullifier new_commitment : Word)
    (proof swap_data : List Nat) (bump : Nat) (now : Int) :
    Except ZyncxError
      (VaultState × MerkleTreeState × Nat × Nat × NullifierState × List (List Nat)) :=
  if nullifier_existing.isSome then .error .AccountAlreadyInUse
  else if ¬ 0 < swap_param.amount_in then .error .InvalidSwapAmount
  else if vault.vault_type ≠ VaultType.Alternative then .error .VaultNotFound
  else if proof = [] then .error .InvalidZKProof
  else
    match merkle_tree.insert E.hsh new_commitment with
    | .error e => .error e
    | .ok (tree2, _) =>
      if swap_param.src_token = swap_param.dst_token then
        if ¬ swap_param.amount_in ≤ vault_token_balance then
          .error .InsufficientFunds
        else
          .ok (vault, tree2, vault_token_balance - swap_param.amount_in,
               recipient + swap_param.amount_in,
               ({ bump := bump, nullifier := nullifier, spent := true,
                  spent_at := now, vault := vaultKey } : NullifierState),
               [wordBytes (swap_param.amount_in % 2 ^ 64),
                wordBytes merkle_tree.root, wordBytes new_commitment,
                wordBytes nullifier])
      else
        match E.jup vault_token_balance recipient swap_data with
        | .error e => .error e
        | .ok (tr2, rec2) =>
          .ok (vault, tree2, tr2, rec2,
               ({ bump := bump, nullifier := nullifier, spent := true,
                  spent_at := now, vault := vaultKey } : NullifierState),
               [wordBytes (swap_param.amount_in % 2 ^ 64),
                wordBytes merkle_tree.root, wordBytes new_commitment,
                wordBytes nullifier])

/-- `instructions/swap.rs`, `handler_cross_token`, preceded by the
`CrossTokenSwap` account resolution: `init` nullifier PDA on the source
vault, then the `dst_vault != src_vault` constraint (`SameVaultSwap`).  The
nullifier is spent against the source vault; the new commitment goes into
the destination tree; the swap runs on the source treasury via Jupiter.
`verify_swap_proof` is the nonempty-proof placeholder. -/
def handler_cross_token (E : Externals) (src_vault dst_vault : VaultState)
    (srcKey dstKey : Pubkey) (src_merkle_tree dst_merkle_tree : MerkleTreeState)
    (src_vault_treasury : Nat) (nullifier_existing : Option NullifierState)
    (recipient : Nat) (swap_param : SwapParam) (nullifier new_commitment : Word)
    (proof swap_data : List Nat) (bump : Nat) (now : Int) :
    Except ZyncxError
      (MerkleTreeState × MerkleTreeState × Nat × Nat × NullifierState) :=
  if nullifier_existing.isSome then .error .AccountAlreadyInUse
  else if dstKey = srcKey then .error .SameVaultSwap
  else if ¬ 0 < swap_param.amount_in then .error .InvalidSwapAmount
  else if swap_param.src_token ≠ src_vault.asset_mint then
    .error .TokenMintMismatch
  else if swap_param.dst_token ≠ dst_vault.asset_mint then
    .error .TokenMintMismatch
  else if proof = [] then .error .InvalidZKProof
  else
    match dst_merkle_tree.insert E.hsh new_commitment with
    | .error e => .error e
    | .ok (dtree2, _) =>
      match E.jup src_vault_treasury recipient swap_data with
      | .error e => .error e
      | .ok (tr2, rec2) =>
        .ok (src_merkle_tree, dtree2, tr2, rec2,
             ({ bump := bump, nullifier := nullifier, spent := true,
                spent_at := now, vault := srcKey } : NullifierState))

/-- `programs/zyncx/src/instructions/withdraw.rs`, `handler_native` (the
second, `programs/` copy of the withdraw instruction): the four 32-byte
public input words it hands to its local groth16 placeholder, in its order
`[amount, root, new_commitment, nullifier]`. -/
def programs_withdraw_public_inputs (amount : Nat)
    (root new_commitment nullifier : Word) : List (List Nat) :=
  [wordBytes (amount % 2 ^ 64), wordBytes root, wordBytes new_commitment,
   wordBytes nullifier]

/-- Modelled from the spec's words (for claim C6): the public inputs the
spec prescribes for Withdraw — exactly
`{root, nullifier, recipient, amount, new_commitment}` in that order,
appended to the proof bytes, and nothing else. -/
def specWithdrawVerifierInput (proof : List Nat)
    (root nullifier recipientKey : Word) (amount : Nat)
    (new_commitment : Word) : List Nat :=
  proof ++ wordBytes root ++ wordBytes nullifier ++ wordBytes recipientKey ++
    wordBytes (amount % 2 ^ 64) ++ wordBytes new_commitment

/-! ## The on-chain account store

PDAs are deterministic functions of their seeds: a vault account is keyed by
its `asset_mint` seed, a nullifier record by its `(vault, nullifier)` seed
pair, a computation request by its `request_id`.  Accounts live in
association lists; `init` fails when the key is already occupied, exactly as
the runtime refuses to re-create an existing account. -/

def lookupKey {κ α : Type} [DecidableEq κ] (l : List (κ × α)) (k : κ) :
    Option α :=
  (l.find? fun p => decide (p.1 = k)).map (·.2)

def setKey {κ α : Type} [DecidableEq κ] : List (κ × α) → κ → α → List (κ × α)
  | [], _, _ => []
  | p :: rest, k, a => if p.1 = k then (k, a) :: rest else p :: setKey rest k a

def eraseKey {κ α : Type} [DecidableEq κ] (l : List (κ × α)) (k : κ) :
    List (κ × α) :=
  l.filter fun p => decide (p.1 ≠ k)

/-- A vault account together with its tree PDA and its custody balance
(lamport treasury for native vaults, vault token account otherwise). -/
structure VaultBundle where
  vault : VaultState
  tree : MerkleTreeState
  treasury : Nat
deriving DecidableEq, Repr

/-- All program accounts. -/
structure SystemState where
  config : ArciumConfig
  vaults : List (Pubkey × VaultBundle)
  nullifiers : List ((Pubkey × Word) × NullifierState)
  requests : List (Nat × ComputationRequest)
deriving DecidableEq, Repr

/-- One instruction invocation (`lib.rs` entry points), with its arguments. -/
inductive Op where
  | initializeVault (asset_mint : Pubkey) (authority : Pubkey)
  | depositNative (vaultKey : Pubkey) (amount : Nat) (precommitment : Word)
  | depositToken (vaultKey : Pubkey) (amount : Nat) (precommitment : Word)
  | withdrawNative (vaultKey recipientKey : Pubkey) (amount : Nat)
      (nullifier new_commitment : Word) (proof : List Nat)
  | withdrawToken (vaultKey recipientKey : Pubkey) (amount : Nat)
      (nullifier new_commitment : Word) (proof : List Nat)
  | swapNative (vaultKey : Pubkey) (swap_param : SwapParam)
      (nullifier new_commitment : Word) (proof swap_data : List Nat)
  | swapToken (vaultKey : Pubkey) (swap_param : SwapParam)
      (nullifier new_commitment : Word) (proof swap_data : List Nat)
  | crossTokenSwap (srcKey dstKey : Pubkey) (swap_param : SwapParam)
      (nullifier new_commitment : Word) (proof swap_data : List Nat)
  | createNullifier (vaultKey : Pubkey) (nullifier : Word)
  | queueConfidentialSwap (vaultKey : Pubkey)
      (params : ConfidentialSwapParams) (proof : List Nat) (user : Pubkey)
  | confidentialSwapCallback (request_id : Nat) (success : Bool)
      (encrypted_result swap_data : List Nat)
  | cancelComputation (request_id : Nat) (user : Pubkey)
deriving DecidableEq, Repr

/-- One transaction: resolve the instruction's accounts (lookups for bound
accounts, freshness for `init` ones), run the handler, write the results
back.  An `.error` outcome is a failed transaction: no account changes. -/
def step (E : Externals) (s : SystemState) (now : Int) :
    Op → Except ZyncxError SystemState
  | .initializeVault mint authority =>
    match lookupKey s.vaults mint with
    | some _ => .error .AccountAlreadyInUse
    | none =>
      .ok { s with
        vaults := (mint,
          ⟨{ bump := 0
             vault_type := if mint = 0 then VaultType.Native
                           else VaultType.Alternative
             asset_mint := mint
             merkle_tree := mint
             nonce := 0
             authority := authority
             total_deposited := 0 },
           initMerkleTree 0, 0⟩) :: s.vaults }
  | .depositNative vk amount pre =>
    match lookupKey s.vaults vk with
    | none => .error .AccountNotFound
    | some b =>
      match deposit_handler_native E b.vault b.tree b.treasury amount pre with
      | .error e => .error e
      | .ok (v2, t2, tr2, _) =>
        .ok { s with vaults := setKey s.vaults vk ⟨v2, t2, tr2⟩ }
  | .depositToken vk amount pre =>
    match lookupKey s.vaults vk with
    | none => .error .AccountNotFound
    | some b =>
      match deposit_handler_token E b.vault b.tree b.treasury amount pre with
      | .error e => .error e
      | .ok (v2, t2, tr2, _) =>
        .ok { s with vaults := setKey s.vaults vk ⟨v2, t2, tr2⟩ }
  | .withdrawNative vk recKey amount nf nc proof =>
    match lookupKey s.vaults vk with
    | none => .error .AccountNotFound
    | some b =>
      match withdraw_handler_native E b.vault vk b.tree b.treasury
        (lookupKey s.nullifiers (vk, nf)) recKey 0 amount nf nc proof 0 now with
      | .error e => .error e
      | .ok (v2, t2, tr2, _, nfa, _) =>
        .ok { s with
              vaults := setKey s.vaults vk ⟨v2, t2, tr2⟩
              nullifiers := ((vk, nf), nfa) :: s.nullifiers }
  | .withdrawToken vk recKey amount nf nc proof =>
    match lookupKey s.vaults vk with
    | none => .error .AccountNotFound
    | some b =>
      match withdraw_handler_token E b.vault vk b.tree b.treasury
        (lookupKey s.nullifiers (vk, nf)) recKey 0 amount nf nc proof 0 now with
      | .error e => .error e
      | .ok (v2, t2, tr2, _, nfa, _) =>
        .ok { s with
              vaults := setKey s.vaults vk ⟨v2, t2, tr2⟩
              nullifiers := ((vk, nf), nfa) :: s.nullifiers }
  | .swapNative vk sp nf nc proof data =>
    match lookupKey s.vaults vk with
    | none => .error .AccountNotFound
    | some b =>
      match swap_handler_native E b.vault vk b.tree b.treasury
        (lookupKey s.nullifiers (vk, nf)) 0 sp nf nc proof data 0 now with
      | .error e => .error e
      | .ok (v2, t2, tr2, _, nfa, _) =>
        .ok { s with
              vaults := setKey s.vaults vk ⟨v2, t2, tr2⟩
              nullifiers := ((vk, nf), nfa) :: s.nullifiers }
  | .swapToken vk sp nf nc proof data =>
    match lookupKey s.vaults vk with
    | none => .error .AccountNotFound
    | some b =>
      match swap_handler_token E b.vault vk b.tree b.treasury
        (lookupKey s.nullifiers (vk, nf)) 0 sp nf nc proof data 0 now with
      | .error e => .error e
      | .ok (v2, t2, tr2, _, nfa, _) =>
        .ok { s with
              vaults := setKey s.vaults vk ⟨v2, t2, tr2⟩
              nullifiers := ((vk, nf), nfa) :: s.nullifiers }
  | .crossTokenSwap srcKey dstKey sp nf nc proof data =>
    match lookupKey s.vaults srcKey with
    | none => .error .AccountNotFound
    | some sb =>
      match lookupKey s.vaults dstKey with
      | none => .error .AccountNotFound
      | some db =>
        match handler_cross_token E sb.vault db.vault srcKey dstKey sb.tree
          db.tree sb.treasury (lookupKey s.nullifiers (srcKey, nf)) 0 sp nf nc
          proof data 0 now with
        | .error e => .error e
        | .ok (stree2, dtree2, tr2, _, nfa) =>
          .ok { s with
            vaults := setKey (setKey s.vaults srcKey ⟨sb.vault, stree2, tr2⟩)
              dstKey ⟨db.vault, dtree2, db.treasury⟩
            nullifiers := ((srcKey, nf), nfa) :: s.nullifiers }
  | .createNullifier vk nf =>
    match lookupKey s.vaults vk with
    | none => .error .AccountNotFound
    | some _ =>
      match lookupKey s.nullifiers (vk, nf) with
      | some _ => .error .AccountAlreadyInUse
      | none =>
        .ok { s with
          nullifiers := ((vk, nf), handler_create_nullifier 0 vk nf) ::
            s.nullifiers }
  | .queueConfidentialSwap vk params proof user =>
    match lookupKey s.vaults vk with
    | none => .error .AccountNotFound
    | some b =>
      match lookupKey s.nullifiers (vk, params.nullifier) with
      | none => .error .AccountNotFound
      | some nfa =>
        match lookupKey s.requests s.config.request_counter with
        | some _ => .error .AccountAlreadyInUse
        | none =>
          match process_queue_confidential_swap s.config b.vault vk b.tree
            nfa params proof user 0 now with
          | .error e => .error e
          | .ok (cfg2, nfa2, req, tree2) =>
            .ok { s with
              config := cfg2
              vaults := setKey s.vaults vk ⟨b.vault, tree2, b.treasury⟩
              nullifiers := setKey s.nullifiers (vk, params.nullifier) nfa2
              requests := (req.request_id, req) :: s.requests }
  | .confidentialSwapCallback rid success res data =>
    match lookupKey s.requests rid with
    | none => .error .AccountNotFound
    | some req =>
      match lookupKey s.vaults req.src_token with
      | none => .error .AccountNotFound
      | some b =>
        match handler_confidential_swap_callback E req b.tree b.vault
          b.treasury 0 success res data now with
        | .error e => .error e
        | .ok (req2, tree2, v2, tr2, _) =>
          .ok { s with
            vaults := setKey s.vaults req.src_token ⟨v2, tree2, tr2⟩
            requests := setKey s.requests rid req2 }
  | .cancelComputation rid user =>
    match lookupKey s.requests rid with
    | none => .error .AccountNotFound
    | some req =>
      match handler_cancel_computation req user now with
      | .error e => .error e
      | .ok _ => .ok { s with requests := eraseKey s.requests rid }

/-- A failed transaction leaves every account as it was. -/
def applyStep (E : Externals) (s : SystemState) (now : Int) (op : Op) :
    SystemState :=
  match step E s now op with
  | .ok s2 => s2
  | .error _ => s

/-- A sequence of transactions, each with its own clock reading. -/
def runOps (E : Externals) (s : SystemState) : List (Int × Op) → SystemState
  | [] => s
  | (now, op) :: rest => runOps E (applyStep E s now op) rest

/-! ## Concrete fixtures for witnesses and counterexamples -/

/-- Concrete externals: the witness hash everywhere, a verifier that accepts
everything, a Jupiter venue that moves nothing. -/
def extTest : Externals :=
  { hsh := testHash
    commitHash := testHash
    verifier := fun _ => true
    jup := fun a b _ => .ok (a, b) }

/-- A freshly initialized native vault (mint `0`). -/
def natVault : VaultState :=
  { bump := 0, vault_type := .Native, asset_mint := 0, merkle_tree := 0,
    nonce := 0, authority := 3, total_deposited := 0 }

/-- A concrete Arcium configuration with a 60 second timeout. -/
def cfgTest : ArciumConfig :=
  { bump := 0, authority := 3, mxe_address := 5, computation_fee := 0,
    request_counter := 0, timeout_seconds := 60, swaps_enabled := true,
    limit_orders_enabled := false, min_amount := 1, max_amount := 1000000 }

/-- An unspent nullifier record for `(vault 0, nullifier 9)`. -/
def nfUnspent : NullifierState := handler_create_nullifier 0 0 9

/-- Concrete confidential-swap parameters (native source token). -/
def paramsTest : ConfidentialSwapParams :=
  { src_token := 0, dst_token := 0, amount := 5, encrypted_bounds := [2],
    recipient := 4, nullifier := 9, new_commitment := 8 }

/-! ## Claim C9: Cancel succeeds exactly after expiry -/

/-- C9: `Cancel` succeeds if and only if the caller is the original
requester, the request is still `Pending`, and `now` is strictly past
`expires_at`; in particular it never succeeds while `now ≤ expires_at`. -/
theorem cancel_succeeds_iff (req : ComputationRequest) (user : Pubkey)
    (now : Int) :
    handler_cancel_computation req user now = .ok () ↔
      (user = req.user ∧ req.status = ComputationStatus.Pending ∧
        req.expires_at < now) := by
  unfold handler_cancel_computation
  split_ifs with h1 h2 h3
  · exact ⟨fun h => absurd h (by simp), fun hc => absurd hc.1.symm h1⟩
  · exact ⟨fun h => absurd h (by simp), fun hc => absurd hc.2.1 h2⟩
  · exact ⟨fun _ => ⟨(not_not.mp h1).symm, not_not.mp h2, h3⟩, fun _ => rfl⟩
  · exact ⟨fun h => absurd h (by simp), fun hc => absurd hc.2.2 h3⟩

/-! ## Claim C5: conditional insert on Withdraw, unconditional on Swap -/

/-- C5 (amended): Withdraw inserts `new_commitment` only when it is nonzero
(a zero sentinel leaves the tree untouched, a nonzero value appends exactly
that leaf); the same-vault Swap handlers instead insert unconditionally, so
even a zero `new_commitment` appends a leaf there. -/
theorem withdraw_insert_conditional_swap_unconditional :
    (∀ (E : Externals) (vault : VaultState) (vk : Pubkey)
       (tree : MerkleTreeState) (treas : Nat) (nfe : Option NullifierState)
       (recKey : Pubkey) (rec amount : Nat) (nf nc : Word) (proof : List Nat)
       (bump : Nat) (now : Int) out,
       withdraw_handler_native E vault vk tree treas nfe recKey rec amount nf
         nc proof bump now = .ok out →
       (nc = 0 → out.2.1 = tree) ∧
       (nc ≠ 0 → out.2.1.leaves = tree.leaves ++ [nc])) ∧
    (∀ (E : Externals) (vault : VaultState) (vk : Pubkey)
       (tree : MerkleTreeState) (treas : Nat) (nfe : Option NullifierState)
       (rec : Nat) (sp : SwapParam) (nf nc : Word) (proof data : List Nat)
       (bump : Nat) (now : Int) out,
       swap_handler_native E vault vk tree treas nfe rec sp nf nc proof data
         bump now = .ok out →
       out.2.1.leaves = tree.leaves ++ [nc]) := by
  constructor
  · intro E vault vk tree treas nfe recKey rec amount nf nc proof bump now out h
    unfold withdraw_handler_native at h
    split at h
    · exact absurd h (by simp)
    · split at h
      · exact absurd h (by simp)
      · split at h
        · exact absurd h (by simp)
        · split at h
          · exact absurd h (by simp)
          · split at h
            · exact absurd h (by simp)
            · next tree2 heq =>
              constructor
              · intro hzero
                rw [if_neg (not_not_intro hzero)] at heq
                simp only [Except.ok.injEq] at heq
                split at h
                · exact absurd h (by simp)
                · simp only [Except.ok.injEq] at h
                  subst h
                  simp [← heq]
              · intro hnz
                rw [if_pos hnz] at heq
                cases hins : tree.insert E.hsh nc with
                | error e =>
                  rw [hins] at heq
                  exact absurd heq (by simp [Except.map])
                | ok p =>
                  rw [hins] at heq
                  simp only [Except.map, Except.ok.injEq] at heq
                  obtain ⟨hl, -⟩ :=
                    insert_ok_fields E.hsh tree p.1 nc p.2 (by rw [hins])
                  split at h
                  · exact absurd h (by simp)
                  · simp only [Except.ok.injEq] at h
                    subst h
                    simp only
                    rw [← heq]
                    exact hl
  · intro E vault vk tree treas nfe rec sp nf nc proof data bump now out h
    unfold swap_handler_native at h
    split at h
    · exact absurd h (by simp)
    · split at h
      · exact absurd h (by simp)
      · split at h
        · exact absurd h (by simp)
        · split at h
          · exact absurd h (by simp)
          · split at h
            · exact absurd h (by simp)
            · next tree2 snd heq =>
              obtain ⟨hl, -⟩ := insert_ok_fields E.hsh tree tree2 nc snd heq
              split at h
              · split at h
                · exact absurd h (by simp)
                · simp only [Except.ok.injEq] at h
                  subst h
                  exact hl
              · split at h
                · exact absurd h (by simp)
                · simp only [Except.ok.injEq] at h
                  subst h
                  exact hl

/-- Counterexample to C5 as stated: a same-vault native Swap whose
`new_commitment` is the zero sentinel still succeeds and grows the tree by
one leaf (from size 0 to size 1), where the claim requires the size to stay
unchanged. -/
theorem withdraw_insert_conditional_swap_unconditional_cex :
    ((swap_handler_native extTest natVault 0 (initMerkleTree 0) 10 none 0
        { src_token := 0, dst_token := 0, amount_in := 5, min_amount_out := 1,
          recipient := 4 } 9 0 [1] [] 0 0).toOption.map
      fun out => (out.2.1.size, out.2.1.leaves)) = some (1, [0]) ∧
    (initMerkleTree 0).size = 0 :=
  ⟨by rfl, by rfl⟩

/-- The output of a concrete full withdrawal (`new_commitment = 0`). -/
def c5WitOut : VaultState × MerkleTreeState × Nat × Nat × NullifierState × List Nat :=
  (withdraw_handler_native extTest natVault 0 (initMerkleTree 0) 10 none 4 0 5
      9 0 [1] 0 0).toOption.getD
    (natVault, initMerkleTree 0, 0, 0, nfUnspent, [])

theorem withdraw_insert_conditional_swap_unconditional_witness :
    c5WitOut.2.1 = initMerkleTree 0 :=
  (withdraw_insert_conditional_swap_unconditional.1 extTest natVault 0
    (initMerkleTree 0) 10 none 4 0 5 9 0 [1] 0 0 c5WitOut (by rfl)).1 rfl

/-! ## Claim C6: the withdraw verifier's public inputs -/

/-- C6 (amended): every Withdraw call that reaches proof verification sends
the verifier the proof bytes followed by exactly six 32-byte public inputs:
the five the spec lists — current root (read at call start), nullifier,
recipient, big-endian amount, new commitment — in that order, plus a sixth,
the vault's token mint, appended after them.  (The `programs/` copy of the
handler instead uses the four inputs `[amount, root, new_commitment,
nullifier]`, restated here from `programs_withdraw_public_inputs`.) -/
theorem withdraw_verifier_input_has_mint (E : Externals) (vault : VaultState)
    (vk : Pubkey) (tree : MerkleTreeState) (treas : Nat)
    (nfe : Option NullifierState) (recKey : Pubkey) (rec amount : Nat)
    (nf nc : Word) (proof : List Nat) (bump : Nat) (now : Int)
    (out : VaultState × MerkleTreeState × Nat × Nat × NullifierState × List Nat)
    (h : withdraw_handler_native E vault vk tree treas nfe recKey rec amount
      nf nc proof bump now = .ok out) :
    out.2.2.2.2.2 =
      specWithdrawVerifierInput proof tree.root nf recKey amount nc ++
        wordBytes vault.asset_mint ∧
    programs_withdraw_public_inputs amount tree.root nc nf =
      [wordBytes (amount % 2 ^ 64), wordBytes tree.root, wordBytes nc,
       wordBytes nf] := by
  refine ⟨?_, rfl⟩
  unfold withdraw_handler_native at h
  split at h
  · exact absurd h (by simp)
  · split at h
    · exact absurd h (by simp)
    · split at h
      · exact absurd h (by simp)
      · split at h
        · exact absurd h (by simp)
        · split at h
          · exact absurd h (by simp)
          · split at h
            · exact absurd h (by simp)
            · simp only [Except.ok.injEq] at h
              subst h
              simp [specWithdrawVerifierInput, List.append_assoc]

/-- A native-typed vault whose recorded mint is the (nonzero) key `7`, to
make the appended sixth public input visible. -/
def natVault7 : VaultState := { natVault with asset_mint := 7 }

/-- Counterexample to C6 as stated: a concrete Withdraw that reaches (and
passes) verification sends the claimed five inputs *plus* the token mint
word; the data sent differs from the spec's exact five-input payload. -/
theorem withdraw_verifier_input_has_mint_cex :
    ((withdraw_handler_native extTest natVault7 0 (initMerkleTree 0) 10 none 4
        0 5 9 0 [1] 0 0).toOption.map (·.2.2.2.2.2)) =
      some (specWithdrawVerifierInput [1] (initMerkleTree 0).root 9 4 5 0 ++
        wordBytes 7) ∧
    specWithdrawVerifierInput [1] (initMerkleTree 0).root 9 4 5 0 ++
        wordBytes 7 ≠
      specWithdrawVerifierInput [1] (initMerkleTree 0).root 9 4 5 0 :=
  ⟨by rfl, by decide⟩

/-- The output of a concrete withdraw against the mint-7 vault. -/
def c6WitOut : VaultState × MerkleTreeState × Nat × Nat × NullifierState × List Nat :=
  (withdraw_handler_native extTest natVault7 0 (initMerkleTree 0) 10 none 4 0
      6 9 0 [1] 0 0).toOption.getD
    (natVault7, initMerkleTree 0, 0, 0, nfUnspent, [])

theorem withdraw_verifier_input_has_mint_witness :
    c6WitOut.2.2.2.2.2 =
      specWithdrawVerifierInput [1] (initMerkleTree 0).root 9 4 6 0 ++
        wordBytes natVault7.asset_mint :=
  (withdraw_verifier_input_has_mint extTest natVault7 0 (initMerkleTree 0) 10
    none 4 0 6 9 0 [1] 0 0 c6WitOut (by rfl)).1

/-! ## Claim C1: what Queue defers and what it does not -/

/-- A concrete `Pending` request fixture (as created by a queue at `t = 0`
with the 60 second timeout). -/
def reqTest : ComputationRequest :=
  { bump := 0, request_id := 0, user := 11, vault := 0,
    computation_type := .ConfidentialSwap, status := .Pending,
    encrypted_strategy := [2],
    callback_instruction := confidential_swap_callback_tag, amount := 5,
    src_token := 0, dst_token := 0, nullifier := 9, new_commitment := 8,
    queued_at := 0, completed_at := 0, result := [], expires_at := 60 }

/-- C1 (amended): a successful Queue leaves the Merkle tree byte-for-byte
unchanged — the commitment insert happens only in a later successful
Callback, which appends exactly the request's bound `new_commitment` — but
Queue itself already marks the bound nullifier record spent; the Callback
binds no nullifier account and leaves the nullifier store unchanged. -/
theorem queue_spends_nullifier_defers_commitment :
    (∀ (config : ArciumConfig) (vault : VaultState) (vk : Pubkey)
       (tree : MerkleTreeState) (nfa : NullifierState)
       (params : ConfidentialSwapParams) (proof : List Nat) (user : Pubkey)
       (bump : Nat) (now : Int) out,
       process_queue_confidential_swap config vault vk tree nfa params proof
         user bump now = .ok out →
       out.2.2.2 = tree ∧ out.2.1.spent = true ∧
         out.2.2.1.status = ComputationStatus.Pending) ∧
    (∀ (E : Externals) (req : ComputationRequest) (tree : MerkleTreeState)
       (vault : VaultState) (tr rec : Nat) (res data : List Nat) (now : Int)
       out,
       handler_confidential_swap_callback E req tree vault tr rec true res
         data now = .ok out →
       out.2.1.leaves = tree.leaves ++ [req.new_commitment]) ∧
    (∀ (E : Externals) (s : SystemState) (now : Int) (rid : Nat)
       (success : Bool) (res data : List Nat) (s2 : SystemState),
       step E s now (.confidentialSwapCallback rid success res data) = .ok s2 →
       s2.nullifiers = s.nullifiers) := by
  refine ⟨?_, ?_, ?_⟩
  · intro config vault vk tree nfa params proof user bump now out h
    unfold process_queue_confidential_swap at h
    split_ifs at h
    simp only [Except.ok.injEq] at h
    subst h
    exact ⟨rfl, rfl, rfl⟩
  · intro E req tree vault tr rec res data now out h
    unfold handler_confidential_swap_callback at h
    split at h
    · exact absurd h (by simp)
    · split at h
      · exact absurd h (by simp)
      · rw [if_neg (by decide)] at h
        split at h
        · exact absurd h (by simp)
        · next tree2 snd heq =>
          obtain ⟨hl, -⟩ :=
            insert_ok_fields E.hsh tree tree2 req.new_commitment snd heq
          split at h
          · split at h
            · exact absurd h (by simp)
            · simp only [Except.ok.injEq] at h
              subst h
              exact hl
          · split at h
            · exact absurd h (by simp)
            · simp only [Except.ok.injEq] at h
              subst h
              exact hl
  · intro E s now rid success res data s2 h
    simp only [step] at h
    split at h
    · exact absurd h (by simp)
    · split at h
      · exact absurd h (by simp)
      · split at h
        · exact absurd h (by simp)
        · simp only [Except.ok.injEq] at h
          subst h
          rfl

/-- Counterexample to C1 as stated: a concrete successful Queue marks the
bound nullifier record spent at queue time (the tree stays empty, but the
claim also asserts the spend is deferred to the Callback, and it is not). -/
theorem queue_spends_nullifier_defers_commitment_cex :
    ((process_queue_confidential_swap cfgTest natVault 0 (initMerkleTree 0)
        nfUnspent paramsTest [1] 11 0 0).toOption.map
      fun out => (out.2.1.spent, out.2.2.2.size)) = some (true, 0) ∧
    nfUnspent.spent = false :=
  ⟨by rfl, by rfl⟩

/-- The output of the concrete queue call above. -/
def c1WitOut : ArciumConfig × NullifierState × ComputationRequest × MerkleTreeState :=
  (process_queue_confidential_swap cfgTest natVault 0 (initMerkleTree 0)
      nfUnspent paramsTest [1] 11 0 0).toOption.getD
    (cfgTest, nfUnspent, reqTest, initMerkleTree 0)

theorem queue_spends_nullifier_defers_commitment_witness :
    c1WitOut.2.2.2 = initMerkleTree 0 ∧ c1WitOut.2.1.spent = true ∧
      c1WitOut.2.2.1.status = ComputationStatus.Pending :=
  queue_spends_nullifier_defers_commitment.1 cfgTest natVault 0
    (initMerkleTree 0) nfUnspent paramsTest [1] 11 0 0 c1WitOut (by rfl)

/-! ## Association-store lemmas -/

theorem lookupKey_cons {κ α : Type} [DecidableEq κ] (k : κ) (a : α)
    (l : List (κ × α)) (p : κ) :
    lookupKey ((k, a) :: l) p = if k = p then some a else lookupKey l p := by
  by_cases h : k = p
  · simp [lookupKey, List.find?, h]
  · simp only [lookupKey, List.find?]
    rw [show (decide ((k, a).1 = p)) = false by simp [h]]
    simp [h, lookupKey]

theorem setKey_lookup_self {κ α : Type} [DecidableEq κ] :
    ∀ (l : List (κ × α)) (k : κ) (a : α), lookupKey l k = some a →
    setKey l k a = l
  | [], k, a => by intro h; simp [lookupKey] at h
  | p :: rest, k, a => by
    intro h
    by_cases hp : p.1 = k
    · have hval : p.2 = a := by
        simp only [lookupKey, List.find?] at h
        rw [show (decide (p.1 = k)) = true by simp [hp]] at h
        simp at h
        exact h
      simp only [setKey, if_pos hp]
      rw [← hp, ← hval]
    · have hrest : lookupKey rest k = some a := by
        simp only [lookupKey, List.find?] at h ⊢
        rw [show (decide (p.1 = k)) = false by simp [hp]] at h
        exact h
      simp only [setKey, if_neg hp]
      rw [setKey_lookup_self rest k a hrest]

theorem lookupKey_setKey_self {κ α : Type} [DecidableEq κ] :
    ∀ (l : List (κ × α)) (k : κ) (a : α),
    lookupKey (setKey l k a) k = (lookupKey l k).map fun _ => a
  | [], k, a => by simp [setKey, lookupKey]
  | p :: rest, k, a => by
    by_cases hp : p.1 = k
    · simp only [setKey, if_pos hp, lookupKey_cons, if_pos rfl]
      simp only [lookupKey, List.find?]
      rw [show (decide (p.1 = k)) = true by simp [hp]]
      simp
    · simp only [setKey, if_neg hp]
      have hx : lookupKey (p :: setKey rest k a) k = lookupKey (setKey rest k a) k := by
        simp only [lookupKey, List.find?]
        rw [show (decide (p.1 = k)) = false by simp [hp]]
      rw [hx, lookupKey_setKey_self rest k a]
      simp only [lookupKey, List.find?]
      rw [show (decide (p.1 = k)) = false by simp [hp]]

theorem lookupKey_setKey_ne {κ α : Type} [DecidableEq κ] :
    ∀ (l : List (κ × α)) (k : κ) (a : α) (p : κ), p ≠ k →
    lookupKey (setKey l k a) p = lookupKey l p
  | [], _, _, _, _ => rfl
  | q :: rest, k, a, p, hne => by
    by_cases hq : q.1 = k
    · rw [setKey, if_pos hq, lookupKey_cons,
        if_neg fun hkp => hne hkp.symm]
      simp only [lookupKey, List.find?]
      rw [show (decide (q.1 = p)) = false from
        decide_eq_false fun hh => hne (hq ▸ hh).symm]
    · rw [setKey, if_neg hq]
      simp only [lookupKey, List.find?]
      by_cases hqp : q.1 = p
      · rw [show (decide (q.1 = p)) = true from decide_eq_true hqp]
      · rw [show (decide (q.1 = p)) = false from decide_eq_false hqp]
        exact lookupKey_setKey_ne rest k a p hne

/-! ## Claims C7 and C8: the Callback on expiry and on failure -/

/-- C7: a Callback on a `Pending` request whose expiry has passed fails with
`ComputationExpired`, and the failed transaction leaves every account —
request, vault, tree, nullifiers — exactly as before, whatever the success
flag carried. -/
theorem callback_expired_rejected (E : Externals) (s : SystemState)
    (now : Int) (rid : Nat) (success : Bool) (res data : List Nat)
    (req : ComputationRequest) (b : VaultBundle)
    (hreq : lookupKey s.requests rid = some req)
    (hb : lookupKey s.vaults req.src_token = some b)
    (hstatus : req.status = ComputationStatus.Pending)
    (hexp : req.expires_at < now) :
    step E s now (.confidentialSwapCallback rid success res data) =
      .error .ComputationExpired ∧
    applyStep E s now (.confidentialSwapCallback rid success res data) = s := by
  have hh : handler_confidential_swap_callback E req b.tree b.vault b.treasury
      0 success res data now = .error .ComputationExpired := by
    unfold handler_confidential_swap_callback
    rw [if_neg (by simp [hstatus]), if_pos (by omega)]
  have hstep : step E s now (.confidentialSwapCallback rid success res data) =
      .error .ComputationExpired := by
    simp only [step, hreq, hb, hh]
  exact ⟨hstep, by simp [applyStep, hstep]⟩

/-- The vault bundle backing the fixtures: a fresh native vault with 100
units of custody. -/
def bundleTest : VaultBundle := ⟨natVault, initMerkleTree 0, 100⟩

/-- A system holding that vault, the `Pending` request `reqTest` (expiring at
`t = 60`), and one unspent nullifier record. -/
def sTest : SystemState :=
  { config := cfgTest
    vaults := [(0, bundleTest)]
    nullifiers := [((0, 9), nfUnspent)]
    requests := [(0, reqTest)] }

theorem callback_expired_rejected_witness :
    step extTest sTest 100 (.confidentialSwapCallback 0 true [2] []) =
      .error .ComputationExpired ∧
    applyStep extTest sTest 100 (.confidentialSwapCallback 0 true [2] []) =
      sTest :=
  callback_expired_rejected extTest sTest 100 0 true [2] [] reqTest bundleTest
    (by rfl) (by rfl) (by rfl) (by decide)

/-- C8: a Callback with `success = false` on a live `Pending` request
succeeds, rewrites only that request (status `Failed`, completion time,
encrypted result), and leaves the vault list (hence every cumulative total,
tree and custody balance), the nullifier store, and the config
byte-for-byte unchanged. -/
theorem callback_failure_frame (E : Externals) (s : SystemState) (now : Int)
    (rid : Nat) (res data : List Nat) (req : ComputationRequest)
    (b : VaultBundle)
    (hreq : lookupKey s.requests rid = some req)
    (hb : lookupKey s.vaults req.src_token = some b)
    (hstatus : req.status = ComputationStatus.Pending)
    (hexp : now ≤ req.expires_at) :
    ∃ s2, step E s now (.confidentialSwapCallback rid false res data) =
        .ok s2 ∧
      s2.requests = setKey s.requests rid
        { req with status := ComputationStatus.Failed, completed_at := now,
                   result := res } ∧
      s2.vaults = s.vaults ∧ s2.nullifiers = s.nullifiers ∧
      s2.config = s.config := by
  have hh : handler_confidential_swap_callback E req b.tree b.vault b.treasury
      0 false res data now =
      .ok ({ req with
               status := ComputationStatus.Failed
               completed_at := now
               result := res },
           b.tree, b.vault, b.treasury, 0) := by
    unfold handler_confidential_swap_callback
    rw [if_neg (by simp [hstatus]), if_neg (not_not_intro hexp),
      if_pos (by decide)]
    rfl
  refine ⟨{ s with
            vaults := setKey s.vaults req.src_token
              ⟨b.vault, b.tree, b.treasury⟩
            requests := setKey s.requests rid
              { req with
                  status := ComputationStatus.Failed
                  completed_at := now
                  result := res } }, ?_, rfl, ?_, rfl, rfl⟩
  · simp only [step, hreq, hb, hh]
  · show setKey s.vaults req.src_token ⟨b.vault, b.tree, b.treasury⟩ = s.vaults
    exact setKey_lookup_self s.vaults req.src_token b hb

/-! ## Success inversions for the consuming handlers -/

theorem withdraw_handler_native_ok_inv (E : Externals) (vault : VaultState)
    (vk : Pubkey) (tree : MerkleTreeState) (treas : Nat)
    (nfe : Option NullifierState) (recKey : Pubkey) (rec amount : Nat)
    (nf nc : Word) (proof : List Nat) (bump : Nat) (now : Int) out
    (h : withdraw_handler_native E vault vk tree treas nfe recKey rec amount
      nf nc proof bump now = .ok out) :
    nfe = none ∧ out.1 = vault ∧
    out.2.2.2.2.1 = { bump := bump, nullifier := nf, spent := true,
                      spent_at := now, vault := vk } := by
  unfold withdraw_handler_native at h
  split at h
  · exact absurd h (by simp)
  · next hno =>
    refine ⟨Option.not_isSome_iff_eq_none.mp (by simpa using hno), ?_⟩
    split at h
    · exact absurd h (by simp)
    · split at h
      · exact absurd h (by simp)
      · split at h
        · exact absurd h (by simp)
        · split at h
          · exact absurd h (by simp)
          · split at h
            · exact absurd h (by simp)
            · simp only [Except.ok.injEq] at h
              subst h
              exact ⟨rfl, rfl⟩

theorem withdraw_handler_token_ok_inv (E : Externals) (vault : VaultState)
    (vk : Pubkey) (tree : MerkleTreeState) (bal : Nat)
    (nfe : Option NullifierState) (recKey : Pubkey) (rec amount : Nat)
    (nf nc : Word) (proof : List Nat) (bump : Nat) (now : Int) out
    (h : withdraw_handler_token E vault vk tree bal nfe recKey rec amount
      nf nc proof bump now = .ok out) :
    nfe = none ∧ out.1 = vault ∧
    out.2.2.2.2.1 = { bump := bump, nullifier := nf, spent := true,
                      spent_at := now, vault := vk } := by
  unfold withdraw_handler_token at h
  split at h
  · exact absurd h (by simp)
  · next hno =>
    refine ⟨Option.not_isSome_iff_eq_none.mp (by simpa using hno), ?_⟩
    split at h
    · exact absurd h (by simp)
    · split at h
      · exact absurd h (by simp)
      · split at h
        · exact absurd h (by simp)
        · split at h
          · exact absurd h (by simp)
          · split at h
            · exact absurd h (by simp)
            · simp only [Except.ok.injEq] at h
              subst h
              exact ⟨rfl, rfl⟩

theorem swap_handler_native_ok_inv (E : Externals) (vault : VaultState)
    (vk : Pubkey) (tree : MerkleTreeState) (treas : Nat)
    (nfe : Option NullifierState) (rec : Nat) (sp : SwapParam) (nf nc : Word)
    (proof data : List Nat) (bump : Nat) (now : Int) out
    (h : swap_handler_native E vault vk tree treas nfe rec sp nf nc proof data
      bump now = .ok out) :
    nfe = none ∧ out.1 = vault ∧
    out.2.2.2.2.1 = { bump := bump, nullifier := nf, spent := true,
                      spent_at := now, vault := vk } := by
  unfold swap_handler_native at h
  split at h
  · exact absurd h (by simp)
  · next hno =>
    refine ⟨Option.not_isSome_iff_eq_none.mp (by simpa using hno), ?_⟩
    split at h
    · exact absurd h (by simp)
    · split at h
      · exact absurd h (by simp)
      · split at h
        · exact absurd h (by simp)
        · split at h
          · exact absurd h (by simp)
          · split at h
            · split at h
              · exact absurd h (by simp)
              · simp only [Except.ok.injEq] at h
                subst h
                exact ⟨rfl, rfl⟩
            · split at h
              · exact absurd h (by simp)
              · simp only [Except.ok.injEq] at h
                subst h
                exact ⟨rfl, rfl⟩

theorem swap_handler_token_ok_inv (E : Externals) (vault : VaultState)
    (vk : Pubkey) (tree : MerkleTreeState) (bal : Nat)
    (nfe : Option NullifierState) (rec : Nat) (sp : SwapParam) (nf nc : Word)
    (proof data : List Nat) (bump : Nat) (now : Int) out
    (h : swap_handler_token E vault vk tree bal nfe rec sp nf nc proof data
      bump now = .ok out) :
    nfe = none ∧ out.1 = vault ∧
    out.2.2.2.2.1 = { bump := bump, nullifier := nf, spent := true,
                      spent_at := now, vault := vk } := by
  unfold swap_handler_token at h
  split at h
  · exact absurd h (by simp)
  · next hno =>
    refine ⟨Option.not_isSome_iff_eq_none.mp (by simpa using hno), ?_⟩
    split at h
    · exact absurd h (by simp)
    · split at h
      · exact absurd h (by simp)
      · split at h
        · exact absurd h (by simp)
        · split at h
          · exact absurd h (by simp)
          · split at h
            · split at h
              · exact absurd h (by simp)
              · simp only [Except.ok.injEq] at h
                subst h
                exact ⟨rfl, rfl⟩
            · split at h
              · exact absurd h (by simp)
              · simp only [Except.ok.injEq] at h
                subst h
                exact ⟨rfl, rfl⟩

theorem handler_cross_token_ok_inv (E : Externals)
    (src_vault dst_vault : VaultState) (srcKey dstKey : Pubkey)
    (stree dtree : MerkleTreeState) (treas : Nat)
    (nfe : Option NullifierState) (rec : Nat) (sp : SwapParam) (nf nc : Word)
    (proof data : List Nat) (bump : Nat) (now : Int) out
    (h : handler_cross_token E src_vault dst_vault srcKey dstKey stree dtree
      treas nfe rec sp nf nc proof data bump now = .ok out) :
    nfe = none ∧
    out.2.2.2.2 = { bump := bump, nullifier := nf, spent := true,
                    spent_at := now, vault := srcKey } := by
  unfold handler_cross_token at h
  split at h
  · exact absurd h (by simp)
  · next hno =>
    refine ⟨Option.not_isSome_iff_eq_none.mp (by simpa using hno), ?_⟩
    split at h
    · exact absurd h (by simp)
    · split at h
      · exact absurd h (by simp)
      · split at h
        · exact absurd h (by simp)
        · split at h
          · exact absurd h (by simp)
          · split at h
            · exact absurd h (by simp)
            · split at h
              · exact absurd h (by simp)
              · split at h
                · exact absurd h (by simp)
                · simp only [Except.ok.injEq] at h
                  subst h
                  rfl

theorem queue_ok_inv (config : ArciumConfig) (vault : VaultState)
    (vk : Pubkey) (tree : MerkleTreeState) (nfa : NullifierState)
    (params : ConfidentialSwapParams) (proof : List Nat) (user : Pubkey)
    (bump : Nat) (now : Int) out
    (h : process_queue_confidential_swap config vault vk tree nfa params proof
      user bump now = .ok out) :
    nfa.spent = false ∧
    out.2.1 = { nfa with
                  nullifier := params.nullifier
                  spent := true
                  spent_at := now
                  vault := vk } := by
  unfold process_queue_confidential_swap at h
  split at h
  · exact absurd h (by simp)
  · next hns =>
    refine ⟨Bool.not_eq_true _ ▸ (by simpa using hns), ?_⟩
    split_ifs at h
    simp only [Except.ok.injEq] at h
    subst h
    rfl

theorem deposit_handler_native_ok_inv (E : Externals) (vault : VaultState)
    (tree : MerkleTreeState) (treas amount : Nat) (pre : Word) out
    (h : deposit_handler_native E vault tree treas amount pre = .ok out) :
    out.1 = { vault with
                nonce := (vault.nonce + 1) % 2 ^ 64
                total_deposited := vault.total_deposited + amount } := by
  unfold deposit_handler_native at h
  split at h
  · exact absurd h (by simp)
  · split at h
    · exact absurd h (by simp)
    · split at h
      · exact absurd h (by simp)
      · split at h
        · exact absurd h (by simp)
        · simp only [Except.ok.injEq] at h
          subst h
          rfl

theorem deposit_handler_token_ok_inv (E : Externals) (vault : VaultState)
    (tree : MerkleTreeState) (bal amount : Nat) (pre : Word) out
    (h : deposit_handler_token E vault tree bal amount pre = .ok out) :
    out.1 = { vault with
                nonce := (vault.nonce + 1) % 2 ^ 64
                total_deposited := vault.total_deposited + amount } := by
  unfold deposit_handler_token at h
  split at h
  · exact absurd h (by simp)
  · split at h
    · exact absurd h (by simp)
    · split at h
      · exact absurd h (by simp)
      · split at h
        · exact absurd h (by simp)
        · simp only [Except.ok.injEq] at h
          subst h
          rfl

theorem callback_ok_vault (E : Externals) (req : ComputationRequest)
    (tree : MerkleTreeState) (vault : VaultState) (tr rec : Nat)
    (success : Bool) (res data : List Nat) (now : Int) out
    (h : handler_confidential_swap_callback E req tree vault tr rec success
      res data now = .ok out) :
    out.2.2.1 = vault := by
  unfold handler_confidential_swap_callback at h
  split at h
  · exact absurd h (by simp)
  · split at h
    · exact absurd h (by simp)
    · split at h
      · simp only [Except.ok.injEq] at h
        subst h
        rfl
      · split at h
        · exact absurd h (by simp)
        · split at h
          · split at h
            · exact absurd h (by simp)
            · simp only [Except.ok.injEq] at h
              subst h
              rfl
          · split at h
            · exact absurd h (by simp)
            · simp only [Except.ok.injEq] at h
              subst h
              rfl

/-! ## Claim C10: vault nonce and cumulative total -/

/-- The `total_deposited` recorded for the vault at key `vk` (0 when the
vault does not exist). -/
def vaultsTotal (l : List (Pubkey × VaultBundle)) (vk : Pubkey) : Nat :=
  match lookupKey l vk with
  | some b => b.vault.total_deposited
  | none => 0

def vaultTotal (s : SystemState) (vk : Pubkey) : Nat := vaultsTotal s.vaults vk

def isOkE {ε α : Type} : Except ε α → Bool
  | .ok _ => true
  | .error _ => false

/-- The amount a transaction adds to vault `vk`'s cumulative total: the
deposited amount when it is a successful deposit into `vk`, zero otherwise. -/
def depositDelta (E : Externals) (s : SystemState) (now : Int) (vk : Pubkey) :
    Op → Nat
  | .depositNative vk2 a pre =>
    if vk2 = vk ∧ isOkE (step E s now (.depositNative vk2 a pre)) = true
    then a else 0
  | .depositToken vk2 a pre =>
    if vk2 = vk ∧ isOkE (step E s now (.depositToken vk2 a pre)) = true
    then a else 0
  | _ => 0

/-- The sum of all successful deposit amounts into `vk` along a trace. -/
def depositSum (E : Externals) (vk : Pubkey) :
    SystemState → List (Int × Op) → Nat
  | _, [] => 0
  | s, (now, op) :: rest =>
    depositDelta E s now vk op + depositSum E vk (applyStep E s now op) rest

theorem lookupKey_setKey_isSome {κ α : Type} [DecidableEq κ]
    (l : List (κ × α)) (k : κ) (a : α) (p : κ) :
    (lookupKey (setKey l k a) p).isSome = (lookupKey l p).isSome := by
  by_cases hp : p = k
  · subst hp
    rw [lookupKey_setKey_self]
    cases lookupKey l p <;> rfl
  · rw [lookupKey_setKey_ne _ _ _ _ hp]

theorem vaultsTotal_setKey (l : List (Pubkey × VaultBundle)) (k : Pubkey)
    (nb : VaultBundle) (hlk : (lookupKey l k).isSome = true) (vk : Pubkey) :
    vaultsTotal (setKey l k nb) vk =
      if k = vk then nb.vault.total_deposited else vaultsTotal l vk := by
  by_cases hv : vk = k
  · subst hv
    rw [if_pos rfl]
    unfold vaultsTotal
    rw [lookupKey_setKey_self]
    cases hx : lookupKey l vk with
    | some b => rfl
    | none => rw [hx] at hlk; simp at hlk
  · rw [if_neg fun hh => hv hh.symm]
    unfold vaultsTotal
    rw [lookupKey_setKey_ne _ _ _ _ hv]

theorem vaultsTotal_cons (k : Pubkey) (nb : VaultBundle)
    (l : List (Pubkey × VaultBundle)) (vk : Pubkey) :
    vaultsTotal ((k, nb) :: l) vk =
      if k = vk then nb.vault.total_deposited else vaultsTotal l vk := by
  unfold vaultsTotal
  rw [lookupKey_cons]
  by_cases hv : k = vk
  · rw [if_pos hv, if_pos hv]
  · rw [if_neg hv, if_neg hv]

/-- Per-transaction accounting: a successful transaction changes a vault's
cumulative total exactly by its deposit delta — every non-deposit
instruction leaves every `total_deposited` unchanged. -/
theorem step_vaultTotal (E : Externals) (s : SystemState) (now : Int)
    (op : Op) (s2 : SystemState) (h : step E s now op = .ok s2) (vk : Pubkey) :
    vaultTotal s2 vk = vaultTotal s vk + depositDelta E s now vk op := by
  have hok : isOkE (step E s now op) = true := by rw [h]; rfl
  cases op with
  | initializeVault mint auth =>
    simp only [step] at h
    split at h
    · exact absurd h (by simp)
    · next hlk =>
      simp only [Except.ok.injEq] at h
      subst h
      show vaultsTotal _ vk = vaultsTotal s.vaults vk + 0
      rw [vaultsTotal_cons]
      by_cases hv : mint = vk
      · rw [if_pos hv]
        unfold vaultsTotal
        rw [← hv, hlk]
      · rw [if_neg hv]
        rfl
  | depositNative vk2 a pre =>
    simp only [step] at h
    split at h
    · exact absurd h (by simp)
    · next b hlk =>
      split at h
      · exact absurd h (by simp)
      · next v2 t2 tr2 cmt hh =>
        simp only [Except.ok.injEq] at h
        subst h
        have hv2 := deposit_handler_native_ok_inv E b.vault b.tree b.treasury
          a pre (v2, t2, tr2, cmt) hh
        show vaultsTotal _ vk = vaultsTotal s.vaults vk + _
        rw [vaultsTotal_setKey _ _ _ (by rw [hlk]; rfl)]
        simp only at hv2
        simp only [depositDelta]
        by_cases hveq : vk2 = vk
        · rw [if_pos hveq, hv2, if_pos (And.intro hveq hok)]
          unfold vaultsTotal
          rw [← hveq, hlk]
        · rw [if_neg hveq, if_neg fun hc => hveq hc.1]
          rfl
  | depositToken vk2 a pre =>
    simp only [step] at h
    split at h
    · exact absurd h (by simp)
    · next b hlk =>
      split at h
      · exact absurd h (by simp)
      · next v2 t2 tr2 cmt hh =>
        simp only [Except.ok.injEq] at h
        subst h
        have hv2 := deposit_handler_token_ok_inv E b.vault b.tree b.treasury
          a pre (v2, t2, tr2, cmt) hh
        show vaultsTotal _ vk = vaultsTotal s.vaults vk + _
        rw [vaultsTotal_setKey _ _ _ (by rw [hlk]; rfl)]
        simp only at hv2
        simp only [depositDelta]
        by_cases hveq : vk2 = vk
        · rw [if_pos hveq, hv2, if_pos (And.intro hveq hok)]
          unfold vaultsTotal
          rw [← hveq, hlk]
        · rw [if_neg hveq, if_neg fun hc => hveq hc.1]
          rfl
  | withdrawNative vk2 recKey a nf nc proof =>
    simp only [step] at h
    split at h
    · exact absurd h (by simp)
    · next b hlk =>
      split at h
      · exact absurd h (by simp)
      · next v2 t2 tr2 r4 nfa r6 hh =>
        simp only [Except.ok.injEq] at h
        subst h
        obtain ⟨-, hv2, -⟩ := withdraw_handler_native_ok_inv E b.vault vk2
          b.tree b.treasury _ recKey 0 a nf nc proof 0 now
          (v2, t2, tr2, r4, nfa, r6) hh
        simp only at hv2
        show vaultsTotal _ vk = vaultsTotal s.vaults vk + 0
        rw [vaultsTotal_setKey _ _ _ (by rw [hlk]; rfl), hv2]
        by_cases hveq : vk2 = vk
        · rw [if_pos hveq]
          unfold vaultsTotal
          rw [← hveq, hlk]
          rfl
        · rw [if_neg hveq]
          rfl
  | withdrawToken vk2 recKey a nf nc proof =>
    simp only [step] at h
    split at h
    · exact absurd h (by simp)
    · next b hlk =>
      split at h
      · exact absurd h (by simp)
      · next v2 t2 tr2 r4 nfa r6 hh =>
        simp only [Except.ok.injEq] at h
        subst h
        obtain ⟨-, hv2, -⟩ := withdraw_handler_token_ok_inv E b.vault vk2
          b.tree b.treasury _ recKey 0 a nf nc proof 0 now
          (v2, t2, tr2, r4, nfa, r6) hh
        simp only at hv2
        show vaultsTotal _ vk = vaultsTotal s.vaults vk + 0
        rw [vaultsTotal_setKey _ _ _ (by rw [hlk]; rfl), hv2]
        by_cases hveq : vk2 = vk
        · rw [if_pos hveq]
          unfold vaultsTotal
          rw [← hveq, hlk]
          rfl
        · rw [if_neg hveq]
          rfl
  | swapNative vk2 sp nf nc proof data =>
    simp only [step] at h
    split at h
    · exact absurd h (by simp)
    · next b hlk =>
      split at h
      · exact absurd h (by simp)
      · next v2 t2 tr2 r4 nfa r6 hh =>
        simp only [Except.ok.injEq] at h
        subst h
        obtain ⟨-, hv2, -⟩ := swap_handler_native_ok_inv E b.vault vk2 b.tree
          b.treasury _ 0 sp nf nc proof data 0 now
          (v2, t2, tr2, r4, nfa, r6) hh
        simp only at hv2
        show vaultsTotal _ vk = vaultsTotal s.vaults vk + 0
        rw [vaultsTotal_setKey _ _ _ (by rw [hlk]; rfl), hv2]
        by_cases hveq : vk2 = vk
        · rw [if_pos hveq]
          unfold vaultsTotal
          rw [← hveq, hlk]
          rfl
        · rw [if_neg hveq]
          rfl
  | swapToken vk2 sp nf nc proof data =>
    simp only [step] at h
    split at h
    · exact absurd h (by simp)
    · next b hlk =>
      split at h
      · exact absurd h (by simp)
      · next v2 t2 tr2 r4 nfa r6 hh =>
        simp only [Except.ok.injEq] at h
        subst h
        obtain ⟨-, hv2, -⟩ := swap_handler_token_ok_inv E b.vault vk2 b.tree
          b.treasury _ 0 sp nf nc proof data 0 now
          (v2, t2, tr2, r4, nfa, r6) hh
        simp only at hv2
        show vaultsTotal _ vk = vaultsTotal s.vaults vk + 0
        rw [vaultsTotal_setKey _ _ _ (by rw [hlk]; rfl), hv2]
        by_cases hveq : vk2 = vk
        · rw [if_pos hveq]
          unfold vaultsTotal
          rw [← hveq, hlk]
          rfl
        · rw [if_neg hveq]
          rfl
  | crossTokenSwap srcKey dstKey sp nf nc proof data =>
    simp only [step] at h
    split at h
    · exact absurd h (by simp)
    · next sb hlks =>
      split at h
      · exact absurd h (by simp)
      · next db hlkd =>
        split at h
        · exact absurd h (by simp)
        · next st2 dt2 tr2 r4 nfa hh =>
          simp only [Except.ok.injEq] at h
          subst h
          show vaultsTotal _ vk = vaultsTotal s.vaults vk + 0
          rw [vaultsTotal_setKey _ _ _
            (by rw [lookupKey_setKey_isSome, hlkd]; rfl)]
          by_cases hvd : dstKey = vk
          · rw [if_pos hvd]
            unfold vaultsTotal
            rw [← hvd, hlkd]
            rfl
          · rw [if_neg hvd]
            rw [vaultsTotal_setKey _ _ _ (by rw [hlks]; rfl)]
            by_cases hvs : srcKey = vk
            · rw [if_pos hvs]
              unfold vaultsTotal
              rw [← hvs, hlks]
              rfl
            · rw [if_neg hvs]
              rfl
  | createNullifier vk2 nf =>
    simp only [step] at h
    split at h
    · exact absurd h (by simp)
    · split at h
      · exact absurd h (by simp)
      · simp only [Except.ok.injEq] at h
        subst h
        show vaultsTotal s.vaults vk = vaultsTotal s.vaults vk + 0
        rfl
  | queueConfidentialSwap vk2 params proof user =>
    simp only [step] at h
    split at h
    · exact absurd h (by simp)
    · next b hlk =>
      split at h
      · exact absurd h (by simp)
      · split at h
        · exact absurd h (by simp)
        · split at h
          · exact absurd h (by simp)
          · next cfg2 nfa2 req tree2 hh =>
            simp only [Except.ok.injEq] at h
            subst h
            show vaultsTotal _ vk = vaultsTotal s.vaults vk + 0
            rw [vaultsTotal_setKey _ _ _ (by rw [hlk]; rfl)]
            by_cases hveq : vk2 = vk
            · rw [if_pos hveq]
              unfold vaultsTotal
              rw [← hveq, hlk]
              rfl
            · rw [if_neg hveq]
              rfl
  | confidentialSwapCallback rid success res data =>
    simp only [step] at h
    split at h
    · exact absurd h (by simp)
    · next req hreq =>
      split at h
      · exact absurd h (by simp)
      · next b hlk =>
        split at h
        · exact absurd h (by simp)
        · next req2 tree2 v2 tr2 r5 hh =>
          simp only [Except.ok.injEq] at h
          subst h
          have hv2 := callback_ok_vault E req b.tree b.vault b.treasury 0
            success res data now (req2, tree2, v2, tr2, r5) hh
          simp only at hv2
          show vaultsTotal _ vk = vaultsTotal s.vaults vk + 0
          rw [vaultsTotal_setKey _ _ _ (by rw [hlk]; rfl), hv2]
          by_cases hveq : req.src_token = vk
          · rw [if_pos hveq]
            unfold vaultsTotal
            rw [← hveq, hlk]
            rfl
          · rw [if_neg hveq]
            rfl
  | cancelComputation rid user =>
    simp only [step] at h
    split at h
    · exact absurd h (by simp)
    · split at h
      · exact absurd h (by simp)
      · simp only [Except.ok.injEq] at h
        subst h
        show vaultsTotal s.vaults vk = vaultsTotal s.vaults vk + 0
        rfl

theorem depositDelta_of_error (E : Externals) (s : SystemState) (now : Int)
    (vk : Pubkey) (op : Op) (e : ZyncxError)
    (h : step E s now op = .error e) :
    depositDelta E s now vk op = 0 := by
  cases op <;> simp [depositDelta, h, isOkE]

/-- Trace-level accounting: after any transaction sequence a vault's
cumulative total is its initial total plus the sum of the successful
deposit amounts into it. -/
theorem runOps_total (E : Externals) (vk : Pubkey) :
    ∀ (ops : List (Int × Op)) (s : SystemState),
    vaultTotal (runOps E s ops) vk = vaultTotal s vk + depositSum E vk s ops := by
  intro ops
  induction ops with
  | nil => intro s; simp [runOps, depositSum]
  | cons p rest ih =>
    intro s
    obtain ⟨now, op⟩ := p
    show vaultTotal (runOps E (applyStep E s now op) rest) vk =
      vaultTotal s vk + (depositDelta E s now vk op +
        depositSum E vk (applyStep E s now op) rest)
    rw [ih]
    cases hstep : step E s now op with
    | error e =>
      have ha : applyStep E s now op = s := by simp [applyStep, hstep]
      rw [ha, depositDelta_of_error E s now vk op e hstep]
      omega
    | ok s2 =>
      have ha : applyStep E s now op = s2 := by simp [applyStep, hstep]
      rw [ha, step_vaultTotal E s now op s2 hstep vk]
      omega

/-- C10: successful Withdraws (native and token) return the vault record
byte-for-byte unchanged — in particular `nonce` and `total_deposited` — while
the Deposit handlers bump the nonce and add the amount to the cumulative
total; consequently, along any transaction trace, a vault's
`total_deposited` equals its initial value plus the sum of all successful
deposits into it, and is never reduced by a withdrawal. -/
theorem withdraw_preserves_vault_totals :
    (∀ (E : Externals) (vault : VaultState) (vk : Pubkey)
       (tree : MerkleTreeState) (treas : Nat) (nfe : Option NullifierState)
       (recKey : Pubkey) (rec amount : Nat) (nf nc : Word) (proof : List Nat)
       (bump : Nat) (now : Int) out,
       withdraw_handler_native E vault vk tree treas nfe recKey rec amount nf
         nc proof bump now = .ok out → out.1 = vault) ∧
    (∀ (E : Externals) (vault : VaultState) (vk : Pubkey)
       (tree : MerkleTreeState) (bal : Nat) (nfe : Option NullifierState)
       (recKey : Pubkey) (rec amount : Nat) (nf nc : Word) (proof : List Nat)
       (bump : Nat) (now : Int) out,
       withdraw_handler_token E vault vk tree bal nfe recKey rec amount nf nc
         proof bump now = .ok out → out.1 = vault) ∧
    (∀ (E : Externals) (vault : VaultState) (tree : MerkleTreeState)
       (treas amount : Nat) (pre : Word) out,
       deposit_handler_native E vault tree treas amount pre = .ok out →
       out.1.total_deposited = vault.total_deposited + amount ∧
       out.1.nonce = (vault.nonce + 1) % 2 ^ 64) ∧
    (∀ (E : Externals) (vault : VaultState) (tree : MerkleTreeState)
       (bal amount : Nat) (pre : Word) out,
       deposit_handler_token E vault tree bal amount pre = .ok out →
       out.1.total_deposited = vault.total_deposited + amount ∧
       out.1.nonce = (vault.nonce + 1) % 2 ^ 64) ∧
    (∀ (E : Externals) (vk : Pubkey) (ops : List (Int × Op))
       (s : SystemState),
       vaultTotal (runOps E s ops) vk =
         vaultTotal s vk + depositSum E vk s ops) := by
  refine ⟨?_, ?_, ?_, ?_, fun E vk ops s => runOps_total E vk ops s⟩
  · intro E vault vk tree treas nfe recKey rec amount nf nc proof bump now out h
    exact (withdraw_handler_native_ok_inv E vault vk tree treas nfe recKey rec
      amount nf nc proof bump now out h).2.1
  · intro E vault vk tree bal nfe recKey rec amount nf nc proof bump now out h
    exact (withdraw_handler_token_ok_inv E vault vk tree bal nfe recKey rec
      amount nf nc proof bump now out h).2.1
  · intro E vault tree treas amount pre out h
    rw [deposit_handler_native_ok_inv E vault tree treas amount pre out h]
    exact ⟨rfl, rfl⟩
  · intro E vault tree bal amount pre out h
    rw [deposit_handler_token_ok_inv E vault tree bal amount pre out h]
    exact ⟨rfl, rfl⟩

theorem withdraw_preserves_vault_totals_witness :
    c5WitOut.1 = natVault :=
  withdraw_preserves_vault_totals.1 extTest natVault 0 (initMerkleTree 0) 10
    none 4 0 5 9 0 [1] 0 0 c5WitOut (by rfl)

/-! ## Claim C4: each (vault, nullifier) pair is consumed at most once -/

/-- Whether a spent record occupies the `(vault, nullifier)` PDA. -/
def spentAt (s : SystemState) (p : Pubkey × Word) : Bool :=
  match lookupKey s.nullifiers p with
  | some r => r.spent
  | none => false

/-- Whether any record occupies the `(vault, nullifier)` PDA. -/
def presentAt (s : SystemState) (p : Pubkey × Word) : Bool :=
  (lookupKey s.nullifiers p).isSome

/-- Whether an instruction is a consuming operation on the pair `p`:
Withdraw, same-vault Swap, Cross-Pool-Swap (against its source vault), or
the confidential-flow spend performed by Queue. -/
def isConsume : Op → (Pubkey × Word) → Bool
  | .withdrawNative vk _ _ nf _ _, p => decide ((vk, nf) = p)
  | .withdrawToken vk _ _ nf _ _, p => decide ((vk, nf) = p)
  | .swapNative vk _ nf _ _ _, p => decide ((vk, nf) = p)
  | .swapToken vk _ nf _ _ _, p => decide ((vk, nf) = p)
  | .crossTokenSwap sk _ _ nf _ _ _, p => decide ((sk, nf) = p)
  | .queueConfidentialSwap vk params _ _, p => decide ((vk, params.nullifier) = p)
  | _, _ => false

/-- The number of successful consuming operations on `p` along a trace. -/
def consumeCount (E : Externals) (p : Pubkey × Word) :
    SystemState → List (Int × Op) → Nat
  | _, [] => 0
  | s, (now, op) :: rest =>
    (if isConsume op p = true ∧ isOkE (step E s now op) = true then 1 else 0) +
      consumeCount E p (applyStep E s now op) rest

/-- Any successful transaction changes the nullifier store in one of three
ways only: not at all, by allocating a fresh record at a previously empty
PDA, or by overwriting an existing record with a spent one (the Queue
spend). -/
theorem step_nullifiers_shape (E : Externals) (s : SystemState) (now : Int)
    (op : Op) (s2 : SystemState) (h : step E s now op = .ok s2) :
    s2.nullifiers = s.nullifiers ∨
    (∃ k r, lookupKey s.nullifiers k = none ∧
      s2.nullifiers = (k, r) :: s.nullifiers) ∨
    (∃ k r0 r, lookupKey s.nullifiers k = some r0 ∧ r.spent = true ∧
      s2.nullifiers = setKey s.nullifiers k r) := by
  cases op with
  | initializeVault mint auth =>
    simp only [step] at h
    split at h
    · exact absurd h (by simp)
    · simp only [Except.ok.injEq] at h
      subst h
      exact Or.inl rfl
  | depositNative vk2 a pre =>
    simp only [step] at h
    split at h
    · exact absurd h (by simp)
    · split at h
      · exact absurd h (by simp)
      · simp only [Except.ok.injEq] at h
        subst h
        exact Or.inl rfl
  | depositToken vk2 a pre =>
    simp only [step] at h
    split at h
    · exact absurd h (by simp)
    · split at h
      · exact absurd h (by simp)
      · simp only [Except.ok.injEq] at h
        subst h
        exact Or.inl rfl
  | withdrawNative vk2 recKey a nf nc proof =>
    simp only [step] at h
    split at h
    · exact absurd h (by simp)
    · next b hlk =>
      split at h
      · exact absurd h (by simp)
      · next v2 t2 tr2 r4 nfa r6 hh =>
        simp only [Except.ok.injEq] at h
        subst h
        obtain ⟨hnone, -, -⟩ := withdraw_handler_native_ok_inv E b.vault vk2
          b.tree b.treasury _ recKey 0 a nf nc proof 0 now
          (v2, t2, tr2, r4, nfa, r6) hh
        exact Or.inr (Or.inl ⟨(vk2, nf), nfa, hnone, rfl⟩)
  | withdrawToken vk2 recKey a nf nc proof =>
    simp only [step] at h
    split at h
    · exact absurd h (by simp)
    · next b hlk =>
      split at h
      · exact absurd h (by simp)
      · next v2 t2 tr2 r4 nfa r6 hh =>
        simp only [Except.ok.injEq] at h
        subst h
        obtain ⟨hnone, -, -⟩ := withdraw_handler_token_ok_inv E b.vault vk2
          b.tree b.treasury _ recKey 0 a nf nc proof 0 now
          (v2, t2, tr2, r4, nfa, r6) hh
        exact Or.inr (Or.inl ⟨(vk2, nf), nfa, hnone, rfl⟩)
  | swapNative vk2 sp nf nc proof data =>
    simp only [step] at h
    split at h
    · exact absurd h (by simp)
    · next b hlk =>
      split at h
      · exact absurd h (by simp)
      · next v2 t2 tr2 r4 nfa r6 hh =>
        simp only [Except.ok.injEq] at h
        subst h
        obtain ⟨hnone, -, -⟩ := swap_handler_native_ok_inv E b.vault vk2
          b.tree b.treasury _ 0 sp nf nc proof data 0 now
          (v2, t2, tr2, r4, nfa, r6) hh
        exact Or.inr (Or.inl ⟨(vk2, nf), nfa, hnone, rfl⟩)
  | swapToken vk2 sp nf nc proof data =>
    simp only [step] at h
    split at h
    · exact absurd h (by simp)
    · next b hlk =>
      split at h
      · exact absurd h (by simp)
      · next v2 t2 tr2 r4 nfa r6 hh =>
        simp only [Except.ok.injEq] at h
        subst h
        obtain ⟨hnone, -, -⟩ := swap_handler_token_ok_inv E b.vault vk2
          b.tree b.treasury _ 0 sp nf nc proof data 0 now
          (v2, t2, tr2, r4, nfa, r6) hh
        exact Or.inr (Or.inl ⟨(vk2, nf), nfa, hnone, rfl⟩)
  | crossTokenSwap srcKey dstKey sp nf nc proof data =>
    simp only [step] at h
    split at h
    · exact absurd h (by simp)
    · next sb hlks =>
      split at h
      · exact absurd h (by simp)
      · next db hlkd =>
        split at h
        · exact absurd h (by simp)
        · next st2 dt2 tr2 r4 nfa hh =>
          simp only [Except.ok.injEq] at h
          subst h
          obtain ⟨hnone, -⟩ := handler_cross_token_ok_inv E sb.vault db.vault
            srcKey dstKey sb.tree db.tree sb.treasury _ 0 sp nf nc proof data
            0 now (st2, dt2, tr2, r4, nfa) hh
          exact Or.inr (Or.inl ⟨(srcKey, nf), nfa, hnone, rfl⟩)
  | createNullifier vk2 nf =>
    simp only [step] at h
    split at h
    · exact absurd h (by simp)
    · split at h
      · exact absurd h (by simp)
      · next hnone =>
        simp only [Except.ok.injEq] at h
        subst h
        exact Or.inr (Or.inl ⟨(vk2, nf), handler_create_nullifier 0 vk2 nf,
          hnone, rfl⟩)
  | queueConfidentialSwap vk2 params proof user =>
    simp only [step] at h
    split at h
    · exact absurd h (by simp)
    · next b hlk =>
      split at h
      · exact absurd h (by simp)
      · next nfa hsome =>
        split at h
        · exact absurd h (by simp)
        · split at h
          · exact absurd h (by simp)
          · next cfg2 nfa2 req tree2 hh =>
            simp only [Except.ok.injEq] at h
            subst h
            obtain ⟨-, hspent⟩ := queue_ok_inv s.config b.vault vk2 b.tree
              nfa params proof user 0 now (cfg2, nfa2, req, tree2) hh
            simp only at hspent
            refine Or.inr (Or.inr ⟨(vk2, params.nullifier), nfa, nfa2,
              hsome, ?_, rfl⟩)
            rw [hspent]
  | confidentialSwapCallback rid success res data =>
    simp only [step] at h
    split at h
    · exact absurd h (by simp)
    · split at h
      · exact absurd h (by simp)
      · split at h
        · exact absurd h (by simp)
        · simp only [Except.ok.injEq] at h
          subst h
          exact Or.inl rfl
  | cancelComputation rid user =>
    simp only [step] at h
    split at h
    · exact absurd h (by simp)
    · split at h
      · exact absurd h (by simp)
      · simp only [Except.ok.injEq] at h
        subst h
        exact Or.inl rfl

theorem spentAt_mono (E : Externals) (s : SystemState) (now : Int) (op : Op)
    (s2 : SystemState) (h : step E s now op = .ok s2) (p : Pubkey × Word)
    (hs : spentAt s p = true) : spentAt s2 p = true := by
  rcases step_nullifiers_shape E s now op s2 h with heq | ⟨k, r, hnone, heq⟩ |
    ⟨k, r0, r, hsome, hspent, heq⟩
  · unfold spentAt at hs ⊢
    rw [heq]
    exact hs
  · unfold spentAt at hs ⊢
    rw [heq, lookupKey_cons]
    by_cases hp : k = p
    · subst hp
      rw [hnone] at hs
      simp at hs
    · rw [if_neg hp]
      exact hs
  · unfold spentAt at hs ⊢
    rw [heq]
    by_cases hp : p = k
    · subst hp
      rw [lookupKey_setKey_self, hsome]
      simpa using hspent
    · rw [lookupKey_setKey_ne _ _ _ _ hp]
      exact hs

theorem consume_spends (E : Externals) (s : SystemState) (now : Int)
    (op : Op) (s2 : SystemState) (p : Pubkey × Word)
    (hc : isConsume op p = true) (h : step E s now op = .ok s2) :
    spentAt s p = false ∧ spentAt s2 p = true := by
  cases op with
  | initializeVault mint auth => simp [isConsume] at hc
  | depositNative vk2 a pre => simp [isConsume] at hc
  | depositToken vk2 a pre => simp [isConsume] at hc
  | createNullifier vk2 nf => simp [isConsume] at hc
  | confidentialSwapCallback rid success res data => simp [isConsume] at hc
  | cancelComputation rid user => simp [isConsume] at hc
  | withdrawNative vk2 recKey a nf nc proof =>
    have hp : (vk2, nf) = p := of_decide_eq_true hc
    subst hp
    simp only [step] at h
    split at h
    · exact absurd h (by simp)
    · next b hlk =>
      split at h
      · exact absurd h (by simp)
      · next v2 t2 tr2 r4 nfa r6 hh =>
        simp only [Except.ok.injEq] at h
        subst h
        obtain ⟨hnone, -, hr⟩ := withdraw_handler_native_ok_inv E b.vault vk2
          b.tree b.treasury _ recKey 0 a nf nc proof 0 now
          (v2, t2, tr2, r4, nfa, r6) hh
        simp only at hr
        constructor
        · simp only [spentAt]
          rw [hnone]
        · simp only [spentAt]
          rw [lookupKey_cons, if_pos rfl, hr]
  | withdrawToken vk2 recKey a nf nc proof =>
    have hp : (vk2, nf) = p := of_decide_eq_true hc
    subst hp
    simp only [step] at h
    split at h
    · exact absurd h (by simp)
    · next b hlk =>
      split at h
      · exact absurd h (by simp)
      · next v2 t2 tr2 r4 nfa r6 hh =>
        simp only [Except.ok.injEq] at h
        subst h
        obtain ⟨hnone, -, hr⟩ := withdraw_handler_token_ok_inv E b.vault vk2
          b.tree b.treasury _ recKey 0 a nf nc proof 0 now
          (v2, t2, tr2, r4, nfa, r6) hh
        simp only at hr
        constructor
        · simp only [spentAt]
          rw [hnone]
        · simp only [spentAt]
          rw [lookupKey_cons, if_pos rfl, hr]
  | swapNative vk2 sp nf nc proof data =>
    have hp : (vk2, nf) = p := of_decide_eq_true hc
    subst hp
    simp only [step] at h
    split at h
    · exact absurd h (by simp)
    · next b hlk =>
      split at h
      · exact absurd h (by simp)
      · next v2 t2 tr2 r4 nfa r6 hh =>
        simp only [Except.ok.injEq] at h
        subst h
        obtain ⟨hnone, -, hr⟩ := swap_handler_native_ok_inv E b.vault vk2
          b.tree b.treasury _ 0 sp nf nc proof data 0 now
          (v2, t2, tr2, r4, nfa, r6) hh
        simp only at hr
        constructor
        · simp only [spentAt]
          rw [hnone]
        · simp only [spentAt]
          rw [lookupKey_cons, if_pos rfl, hr]
  | swapToken vk2 sp nf nc proof data =>
    have hp : (vk2, nf) = p := of_decide_eq_true hc
    subst hp
    simp only [step] at h
    split at h
    · exact absurd h (by simp)
    · next b hlk =>
      split at h
      · exact absurd h (by simp)
      · next v2 t2 tr2 r4 nfa r6 hh =>
        simp only [Except.ok.injEq] at h
        subst h
        obtain ⟨hnone, -, hr⟩ := swap_handler_token_ok_inv E b.vault vk2
          b.tree b.treasury _ 0 sp nf nc proof data 0 now
          (v2, t2, tr2, r4, nfa, r6) hh
        simp only at hr
        constructor
        · simp only [spentAt]
          rw [hnone]
        · simp only [spentAt]
          rw [lookupKey_cons, if_pos rfl, hr]
  | crossTokenSwap srcKey dstKey sp nf nc proof data =>
    have hp : (srcKey, nf) = p := of_decide_eq_true hc
    subst hp
    simp only [step] at h
    split at h
    · exact absurd h (by simp)
    · next sb hlks =>
      split at h
      · exact absurd h (by simp)
      · next db hlkd =>
        split at h
        · exact absurd h (by simp)
        · next st2 dt2 tr2 r4 nfa hh =>
          simp only [Except.ok.injEq] at h
          subst h
          obtain ⟨hnone, hr⟩ := handler_cross_token_ok_inv E sb.vault db.vault
            srcKey dstKey sb.tree db.tree sb.treasury _ 0 sp nf nc proof data
            0 now (st2, dt2, tr2, r4, nfa) hh
          simp only at hr
          constructor
          · simp only [spentAt]
            rw [hnone]
          · simp only [spentAt]
            rw [lookupKey_cons, if_pos rfl, hr]
  | queueConfidentialSwap vk2 params proof user =>
    have hp : (vk2, params.nullifier) = p := of_decide_eq_true hc
    subst hp
    simp only [step] at h
    split at h
    · exact absurd h (by simp)
    · next b hlk =>
      split at h
      · exact absurd h (by simp)
      · next nfa hsome =>
        split at h
        · exact absurd h (by simp)
        · split at h
          · exact absurd h (by simp)
          · next cfg2 nfa2 req tree2 hh =>
            simp only [Except.ok.injEq] at h
            subst h
            obtain ⟨hunspent, hr⟩ := queue_ok_inv s.config b.vault vk2 b.tree
              nfa params proof user 0 now (cfg2, nfa2, req, tree2) hh
            simp only at hr
            constructor
            · simp only [spentAt]
              rw [hsome]
              exact hunspent
            · simp only [spentAt]
              rw [lookupKey_setKey_self, hsome]
              show nfa2.spent = true
              rw [hr]

theorem presentAt_mono (E : Externals) (s : SystemState) (now : Int) (op : Op)
    (s2 : SystemState) (h : step E s now op = .ok s2) (p : Pubkey × Word)
    (hs : presentAt s p = true) : presentAt s2 p = true := by
  rcases step_nullifiers_shape E s now op s2 h with heq | ⟨k, r, hnone, heq⟩ |
    ⟨k, r0, r, hsome, hspent, heq⟩
  · unfold presentAt at hs ⊢
    rw [heq]
    exact hs
  · unfold presentAt at hs ⊢
    rw [heq, lookupKey_cons]
    by_cases hp : k = p
    · rw [if_pos hp]
      rfl
    · rw [if_neg hp]
      exact hs
  · unfold presentAt at hs ⊢
    rw [heq]
    by_cases hp : p = k
    · subst hp
      rw [lookupKey_setKey_self, hsome]
      rfl
    · rw [lookupKey_setKey_ne _ _ _ _ hp]
      exact hs

theorem isOkE_ok {ε α : Type} (x : Except ε α) (h : isOkE x = true) :
    ∃ a, x = .ok a := by
  cases x with
  | ok a => exact ⟨a, rfl⟩
  | error e => simp [isOkE] at h

theorem consumeCount_zero_of_spent (E : Externals) (p : Pubkey × Word) :
    ∀ (ops : List (Int × Op)) (s : SystemState), spentAt s p = true →
    consumeCount E p s ops = 0
  | [], _, _ => rfl
  | (now, op) :: rest, s, hs => by
    show (if isConsume op p = true ∧ isOkE (step E s now op) = true then 1
          else 0) + consumeCount E p (applyStep E s now op) rest = 0
    have hif : (if isConsume op p = true ∧ isOkE (step E s now op) = true
        then 1 else 0) = 0 := by
      by_cases hcnd : isConsume op p = true ∧ isOkE (step E s now op) = true
      · obtain ⟨s2, hs2⟩ := isOkE_ok _ hcnd.2
        have hfalse := (consume_spends E s now op s2 p hcnd.1 hs2).1
        rw [hfalse] at hs
        exact absurd hs (by simp)
      · rw [if_neg hcnd]
    have htail : spentAt (applyStep E s now op) p = true := by
      cases hstep : step E s now op with
      | error e =>
        have ha : applyStep E s now op = s := by simp [applyStep, hstep]
        rw [ha]
        exact hs
      | ok s2 =>
        have ha : applyStep E s now op = s2 := by simp [applyStep, hstep]
        rw [ha]
        exact spentAt_mono E s now op s2 hstep p hs
    rw [hif, consumeCount_zero_of_spent E p rest _ htail]

theorem consumeCount_le_one (E : Externals) (p : Pubkey × Word) :
    ∀ (ops : List (Int × Op)) (s : SystemState), consumeCount E p s ops ≤ 1
  | [], _ => by simp [consumeCount]
  | (now, op) :: rest, s => by
    show (if isConsume op p = true ∧ isOkE (step E s now op) = true then 1
          else 0) + consumeCount E p (applyStep E s now op) rest ≤ 1
    by_cases hcnd : isConsume op p = true ∧ isOkE (step E s now op) = true
    · obtain ⟨s2, hs2⟩ := isOkE_ok _ hcnd.2
      have hafter := (consume_spends E s now op s2 p hcnd.1 hs2).2
      have ha : applyStep E s now op = s2 := by simp [applyStep, hs2]
      rw [if_pos hcnd, ha, consumeCount_zero_of_spent E p rest s2 hafter]
    · rw [if_neg hcnd]
      simpa using consumeCount_le_one E p rest (applyStep E s now op)

/-- C4 (amended): along any transaction trace, at most one consuming
operation — Withdraw, same-vault Swap, Cross-Pool-Swap against the source
vault, or the confidential-flow Queue spend — can ever succeed for a given
`(vault, nullifier)` pair; nullifier records are never deleted and never
un-spent; and every successful consume finds the pair not-yet-spent and
leaves it spent.  (The claim's stronger phrasing — that the mere existence
of a record at the pair's PDA makes every later consume fail — is false: a
record pre-created unspent by `create_nullifier` is exactly what a
subsequent Queue consumes; also, the Withdraw/Swap paths fail on an existing
record with the runtime's account-already-in-use error, not a program-level
already-spent error.) -/
theorem nullifier_consume_at_most_once :
    (∀ (E : Externals) (p : Pubkey × Word) (ops : List (Int × Op))
       (s : SystemState), consumeCount E p s ops ≤ 1) ∧
    (∀ (E : Externals) (s : SystemState) (now : Int) (op : Op)
       (s2 : SystemState) (p : Pubkey × Word), step E s now op = .ok s2 →
       (presentAt s p = true → presentAt s2 p = true) ∧
       (spentAt s p = true → spentAt s2 p = true)) ∧
    (∀ (E : Externals) (s : SystemState) (now : Int) (op : Op)
       (s2 : SystemState) (p : Pubkey × Word), isConsume op p = true →
       step E s now op = .ok s2 →
       spentAt s p = false ∧ spentAt s2 p = true) :=
  ⟨fun E p ops s => consumeCount_le_one E p ops s,
   fun E s now op s2 p h =>
     ⟨presentAt_mono E s now op s2 h p, spentAt_mono E s now op s2 h p⟩,
   fun E s now op s2 p hc h => consume_spends E s now op s2 p hc h⟩

/-- A system with one native vault, no nullifier records, no requests. -/
def sQ : SystemState :=
  { config := cfgTest
    vaults := [(0, bundleTest)]
    nullifiers := []
    requests := [] }

/-- The state after `create_nullifier` for the pair `(0, 9)`. -/
def sQ1 : SystemState := applyStep extTest sQ 0 (.createNullifier 0 9)

/-- Counterexample to C4 as stated: after `create_nullifier`, a record
exists at the pair's deterministic PDA, yet a later consuming operation (the
Queue spend of the confidential flow) still succeeds on that same pair. -/
theorem nullifier_consume_at_most_once_cex :
    presentAt sQ1 (0, 9) = true ∧
    isConsume (.queueConfidentialSwap 0 paramsTest [1] 11) (0, 9) = true ∧
    isOkE (step extTest sQ1 1 (.queueConfidentialSwap 0 paramsTest [1] 11)) =
      true :=
  ⟨by rfl, by decide, by rfl⟩

theorem nullifier_consume_at_most_once_witness :
    spentAt sQ (0, 9) = false ∧
    spentAt (applyStep extTest sQ 0 (.withdrawNative 0 4 5 9 0 [1])) (0, 9) =
      true :=
  nullifier_consume_at_most_once.2.2 extTest sQ 0
    (.withdrawNative 0 4 5 9 0 [1])
    (applyStep extTest sQ 0 (.withdrawNative 0 4 5 9 0 [1])) (0, 9)
    (by decide) (by rfl)

theorem callback_failure_frame_witness :
    ∃ s2, step extTest sTest 50 (.confidentialSwapCallback 0 false [2] []) =
        .ok s2 ∧
      s2.requests = setKey sTest.requests 0
        { reqTest with status := ComputationStatus.Failed, completed_at := 50,
                       result := [2] } ∧
      s2.vaults = sTest.vaults ∧ s2.nullifiers = sTest.nullifiers ∧
      s2.config = sTest.config :=
  callback_failure_frame extTest sTest 50 0 [2] [] reqTest bundleTest
    (by rfl) (by rfl) (by rfl) (by decide)

end Zyncx
